import Mathlib

/-!
# operator-registry: the bolt cache, its reference-counted store handle, and
the migration to the v2 schemas

A shallow embedding of `pkg/registry/cache/internal/refcount.go`,
`pkg/registry/cache/bolt.go`, `pkg/registry/query.go`,
`alpha/fbc/v2/channel.go`, `alpha/fbc/v2/bundle.go` and
`alpha/action/migrations/001_v2.go`.

Conventions of the embedding

* A Go `string` or `[]byte` is a list of bytes (`Bytes`).
* A Go `error` is `Option Err` (`none` is `nil`); a Go `(T, error)` result is
  `Except Err T`.
* A Go `map` that the code only ranges over is the list of its values in the
  order the range statement visits them; a map the code indexes is an
  association list with at most one entry per key.
* A method with side effects returns the new state next to its result, and the
  list of calls it made to its collaborators (`Open`, `Close`, the body `f`,
  a store read), so that "is never invoked" is a statement about that list.
-/

namespace OperatorRegistry

/-! ## Bytes, strings and errors -/

/-- One Go `byte`. -/
abbrev Byte := Fin 256

/-- A Go `string` or `[]byte`. -/
abbrev Bytes := List Byte

/-- The bytes of an ASCII literal of the source, such as `"bundles"`. -/
def ascii (s : String) : Bytes := s.data.map (fun c => Fin.ofNat c.toNat)

/-- A Go `error` value.  `errorf` is `fmt.Errorf(format, args...)` with string
arguments; `wrapf` is `fmt.Errorf` whose last verb is `%v` of an error;
`aggregate` is the non-nil result of `utilerrors.NewAggregate`, or a slice of
errors that `%v` prints; `lib` is an error made by a collaborator (the store, the decoder, a sender, `Open`,
`Close`, the body of `With`). -/
inductive Err where
  | lib (text : String)
  | errorf (format : String) (args : List Bytes)
  | wrapf (format : String) (args : List Bytes) (cause : Err)
  | aggregate (errs : List Err)

/-- The Go function `utilerrors.NewAggregate`: drops the nil entries of the
list and returns nil when nothing is left. -/
def NewAggregate (errlist : List (Option Err)) : Option Err :=
  if errlist.length = 0 then none
  else
    let errs := errlist.filterMap id
    if errs.length = 0 then none else some (Err.aggregate errs)

/-! ## `internal.RefCounter` -/

/-- A call a `RefCounter` method makes to one of its collaborators. -/
inductive Call where
  | Open
  | Close
  | f
deriving DecidableEq, Repr

/-- The mutable fields of `RefCounter[Item]`: `item` (`none` is the nil
pointer) and `count` (a `uint64`).  The function fields `Open` and `Close` are
passed to each method, since a call of either may succeed at one time and fail
at another. -/
structure RefCounter (Item : Type) where
  item : Option Item
  count : Nat
deriving DecidableEq, Repr

/-- The method `rc.open()`: result, new state, calls made. -/
def RefCounter.open {Item : Type} (rc : RefCounter Item)
    (Open : Unit → Except Err Item) : Except Err Item × RefCounter Item × List Call :=
  match rc.item with
  | none =>
    match Open () with
    | .error err => (.error err, rc, [Call.Open])
    | .ok db => (.ok db, { item := some db, count := (rc.count + 1) % 2 ^ 64 }, [Call.Open])
  | some it => (.ok it, { item := some it, count := (rc.count + 1) % 2 ^ 64 }, [])

/-- The method `rc.close()`: result, new state, calls made.  `Close` receives
the pointer `rc.item` as it is, nil included. -/
def RefCounter.close {Item : Type} (rc : RefCounter Item)
    (Close : Option Item → Option Err) : Option Err × RefCounter Item × List Call :=
  if rc.count = 1 then
    match Close rc.item with
    | some err => (some err, rc, [Call.Close])
    | none => (none, { item := none, count := (rc.count + 2 ^ 64 - 1) % 2 ^ 64 }, [Call.Close])
  else (none, { item := rc.item, count := (rc.count + 2 ^ 64 - 1) % 2 ^ 64 }, [])

/-- The outcome of one `With` call. -/
structure WithResult (Item σ : Type) where
  err : Option Err
  rc : RefCounter Item
  user : σ
  calls : List Call

/-- The method `rc.With(f)`.  The body `f` runs outside the mutex on the state
`σ` it closes over; `others` is what the acquire and release steps of other
goroutines do to the counter while `f` runs (the identity for a lone caller). -/
def RefCounter.With {Item σ : Type} (rc : RefCounter Item)
    (Open : Unit → Except Err Item) (Close : Option Item → Option Err)
    (others : RefCounter Item → RefCounter Item)
    (f : Item → σ → Option Err × σ) (s : σ) : WithResult Item σ :=
  match rc.open Open with
  | (.error err, rc1, t1) => { err := some err, rc := rc1, user := s, calls := t1 }
  | (.ok item, rc1, t1) =>
    let (ferr, s1) := f item s
    let (closeErr, rc2, t2) := (others rc1).close Close
    { err := NewAggregate [ferr, closeErr], rc := rc2, user := s1, calls := t1 ++ [Call.f] ++ t2 }

/-! ### The counter as a state machine

The two halves of `With` calls, taken one at a time in any interleaving.  The
ghost field `active` counts the `With` calls that have acquired and not yet
released; `calls` collects the `Open` and `Close` invocations. -/

/-- One atomic step under the mutex: the acquire half of some `With` call, or
the release half of a `With` call that has acquired. -/
inductive Step (Item : Type) where
  | acquire (Open : Unit → Except Err Item)
  | release (Close : Option Item → Option Err)

/-- The counter together with the ghost bookkeeping of the state machine. -/
structure Sys (Item : Type) where
  rc : RefCounter Item
  active : Nat
  calls : List Call

/-- The state before any `With` call. -/
def Sys.init {Item : Type} : Sys Item :=
  { rc := { item := none, count := 0 }, active := 0, calls := [] }

/-- One step of the state machine.  A release is only taken by a caller that
acquired, so it is disabled when no caller is active. -/
def Sys.step {Item : Type} (s : Sys Item) : Step Item → Sys Item
  | .acquire Open =>
    match s.rc.open Open with
    | (.ok _, rc1, t) => { rc := rc1, active := s.active + 1, calls := s.calls ++ t }
    | (.error _, rc1, t) => { rc := rc1, active := s.active, calls := s.calls ++ t }
  | .release Close =>
    if s.active = 0 then s
    else
      match s.rc.close Close with
      | (_, rc1, t) => { rc := rc1, active := s.active - 1, calls := s.calls ++ t }

/-- A run of the state machine. -/
def Sys.run {Item : Type} (s : Sys Item) (steps : List (Step Item)) : Sys Item :=
  steps.foldl Sys.step s

/-- A step whose `Close`, if it is a release, returns nil on every pointer. -/
def Step.closeNeverFails {Item : Type} : Step Item → Prop
  | .acquire _ => True
  | .release Close => ∀ it, Close it = none

/-- The invariant of the state machine as long as no `Close` call fails: the
counter is the number of active callers, stays below the `uint64` range that
the run can reach, and the item is held exactly when a caller is active. -/
def Sys.Inv {Item : Type} (s : Sys Item) (bound : Nat) : Prop :=
  s.rc.count = s.active ∧ s.active ≤ bound ∧ (s.rc.item.isSome = true ↔ 0 < s.active)

/-! ## The record type `api.Bundle` and the sender -/

/-- Modelled from the spec: the type declaration `api.Bundle` (package `pkg/api`),
with the fields the cache reads or clears and the identity fields of the full
bundle record.  A nil slice is the empty list. -/
structure ApiBundle where
  CsvName : Bytes
  PackageName : Bytes
  ChannelName : Bytes
  CsvJson : Bytes
  Object : List Bytes
  BundlePath : Bytes
  Version : Bytes
  SkipRange : Bytes
  Replaces : Bytes
  Skips : List Bytes
deriving DecidableEq, Repr

/-- The zero value `api.Bundle{}`. -/
def ApiBundle.zero : ApiBundle :=
  { CsvName := [], PackageName := [], ChannelName := [], CsvJson := [], Object := [],
    BundlePath := [], Version := [], SkipRange := [], Replaces := [], Skips := [] }

/-- The method `(*SliceBundleSender).Send` of `pkg/registry/query.go`: appends
the record and returns nil. -/
def SliceBundleSender.Send (b : ApiBundle) (s : List ApiBundle) : Option Err × List ApiBundle :=
  (none, s ++ [b])

/-! ## The store: two buckets of a bbolt file -/

/-- A bbolt bucket: its key/value pairs in the order `ForEach` visits them
(ascending keys, compared bytewise). -/
abbrev Bucket := List (Bytes × Bytes)

/-- The bbolt limit `MaxKeySize`. -/
def MaxKeySize : Nat := 32768

/-- The bbolt limit `MaxValueSize`, `(1 << 31) - 2`. -/
def MaxValueSize : Nat := 2147483646

/-- Insertion of a pair at its place in key order, replacing the pair that has
the same key. -/
def Bucket.insert : Bucket → Bytes → Bytes → Bucket
  | [], k, v => [(k, v)]
  | (k1, v1) :: rest, k, v =>
    if k = k1 then (k, v) :: rest
    else if k < k1 then (k, v) :: (k1, v1) :: rest
    else (k1, v1) :: Bucket.insert rest k v

/-- The bbolt method `Bucket.Put` in a writable transaction. -/
def Bucket.Put (b : Bucket) (k v : Bytes) : Except Err Bucket :=
  if k.length = 0 then .error (Err.lib "key required")
  else if k.length > MaxKeySize then .error (Err.lib "key too large")
  else if v.length > MaxValueSize then .error (Err.lib "value too large")
  else .ok (b.insert k v)

/-- The bbolt method `Bucket.Get`: `none` is the nil slice of an absent key. -/
def Bucket.Get : Bucket → Bytes → Option Bytes
  | [], _ => none
  | (k1, v1) :: rest, k => if k = k1 then some v1 else Bucket.Get rest k

/-- The bbolt method `Bucket.ForEach`: calls `fn` on every pair in key order
and stops at the first error, which it returns. -/
def Bucket.ForEach {σ : Type} (fn : Bytes → Bytes → σ → Option Err × σ) :
    Bucket → σ → Option Err × σ
  | [], s => (none, s)
  | (k, v) :: rest, s =>
    match fn k v s with
    | (some err, s1) => (some err, s1)
    | (none, s1) => Bucket.ForEach fn rest s1

/-- The content of a store file `bolt.db` that holds the two buckets of the
cache, `packageIndices` and `bundles`. -/
structure DB where
  packageIndices : Bucket
  bundles : Bucket
deriving DecidableEq, Repr

/-- The content of the cache directory `baseDir`: the store file `bolt.db` and
the digest file `bolt.digest`, each absent or present.  An operation on the
directory fails only for a reason visible in this state. -/
structure Dir where
  db : Option DB
  digest : Option Bytes
deriving DecidableEq, Repr

/-! ## The package index -/

/-- A Go `map[string]V` that the code indexes: one entry per key. -/
abbrev GoMap (V : Type) := List (Bytes × V)

/-- The index expression `m[k]` in its two-result form; `none` is `ok == false`. -/
def GoMap.get {V : Type} : GoMap V → Bytes → Option V
  | [], _ => none
  | (k1, v1) :: rest, k => if k = k1 then some v1 else GoMap.get rest k

/-- The assignment `m[k] = v`. -/
def GoMap.set {V : Type} : GoMap V → Bytes → V → GoMap V
  | [], k, v => [(k, v)]
  | (k1, v1) :: rest, k, v =>
    if k = k1 then (k, v) :: rest else (k1, v1) :: GoMap.set rest k v

/-- Modelled from the spec: the type declaration `cBundle`, the index record of
a bundle (name, version and the upgrade edges it declares). -/
structure cBundle where
  Name : Bytes
  Version : Bytes
  Replaces : Bytes
  Skips : List Bytes
  SkipRange : Bytes
deriving DecidableEq, Repr

/-- Modelled from the spec: the type declaration `cChannel`, the index record of
a channel (name, head bundle, bundles by name). -/
structure cChannel where
  Name : Bytes
  Head : Bytes
  Bundles : GoMap cBundle
deriving DecidableEq, Repr

/-- Modelled from the spec: the type declaration `cPkg`, the index record of a
package (name, default channel, channels by name). -/
structure cPkg where
  Name : Bytes
  DefaultChannel : Bytes
  Channels : GoMap cChannel
deriving DecidableEq, Repr

/-- The zero value `cPkg{}`, which indexing a map at an absent key returns. -/
def cPkg.zero : cPkg := { Name := [], DefaultChannel := [], Channels := [] }

/-- The type `packageIndex`, a `map[string]cPkg`. -/
abbrev packageIndex := GoMap cPkg

/-! ## The catalog model that `Build` reads -/

/-- Modelled from the spec: the type declaration `model.Bundle`; `Package` and
`Channel` are the names of the package and channel its back pointers lead to. -/
structure ModelBundle where
  Package : Bytes
  Channel : Bytes
  Name : Bytes
  Image : Bytes
  Replaces : Bytes
  Skips : List Bytes
  SkipRange : Bytes
  CsvJSON : Bytes
  Objects : List Bytes
  Version : Bytes
deriving DecidableEq, Repr

/-- Modelled from the spec: the type declaration `model.Channel`; `Bundles` is
the map of its bundles in the order a range statement visits it. -/
structure ModelChannel where
  Name : Bytes
  Bundles : List ModelBundle
deriving DecidableEq, Repr

/-- Modelled from the spec: the type declaration `model.Package`; `Channels` is
the map of its channels in the order a range statement visits it. -/
structure ModelPackage where
  Name : Bytes
  DefaultChannel : Bytes
  Channels : List ModelChannel
deriving DecidableEq, Repr

/-- The type `model.Model`, in the order a range statement visits it. -/
abbrev Model := List ModelPackage

/-- The functions of other packages that the cache calls, for a source
filesystem of type `FS`.  `LoadModel` is `declcfg.LoadFS` followed by
`declcfg.ConvertToModel`; `Head` is `(*model.Channel).Head`; `Marshal` and
`Unmarshal` are those of `proto` on `api.Bundle`; `jsonEncode` and
`jsonDecode` are `json.Encoder.Encode` and `json.Decoder.Decode` on `cPkg`;
`TrimFunc` and `TrimRightFunc` are those of `strings` at `unicode.IsSpace`. -/
structure Collab (FS : Type) where
  ensureEmptyDir : Dir → Option Err × Dir
  LoadModel : FS → Except Err Model
  Head : ModelChannel → Except Err ModelBundle
  ConvertModelBundleToAPIBundle : ModelBundle → Except Err ApiBundle
  Marshal : ApiBundle → Except Err Bytes
  Unmarshal : Bytes → Except Err ApiBundle
  jsonEncode : cPkg → Except Err Bytes
  jsonDecode : Bytes → Except Err cPkg
  fsToTar : FS → Except Err Bytes
  TrimFunc : Bytes → Bytes
  TrimRightFunc : Bytes → Bytes

/-- Modelled from the spec: the function `packagesFromModel` of the cache
package, at the level of one bundle: the index record of a model bundle. -/
def cBundleFromModel (b : ModelBundle) : cBundle :=
  { Name := b.Name, Version := b.Version, Replaces := b.Replaces, Skips := b.Skips,
    SkipRange := b.SkipRange }

/-- Modelled from the spec: the function `packagesFromModel`, the loop over the
bundles of a channel, which fills the map of index records by bundle name. -/
def bundlesFromModel : List ModelBundle → GoMap cBundle → GoMap cBundle
  | [], m => m
  | b :: rest, m => bundlesFromModel rest (m.set b.Name (cBundleFromModel b))

/-- Modelled from the spec: the function `packagesFromModel`, the loop over the
channels of a package; it fails when the head of a channel cannot be found. -/
def channelsFromModel {FS : Type} (c : Collab FS) :
    List ModelChannel → GoMap cChannel → Except Err (GoMap cChannel)
  | [], m => .ok m
  | ch :: rest, m =>
    match c.Head ch with
    | .error err => .error err
    | .ok head =>
      channelsFromModel c rest
        (m.set ch.Name { Name := ch.Name, Head := head.Name,
                         Bundles := bundlesFromModel ch.Bundles [] })

/-- Modelled from the spec: the function `packagesFromModel`, which derives the
lightweight index of every package of the model, by package name. -/
def packagesFromModel {FS : Type} (c : Collab FS) :
    Model → GoMap cPkg → Except Err (GoMap cPkg)
  | [], m => .ok m
  | p :: rest, m =>
    match channelsFromModel c p.Channels [] with
    | .error err => .error err
    | .ok chs =>
      packagesFromModel c rest
        (m.set p.Name { Name := p.Name, DefaultChannel := p.DefaultChannel, Channels := chs })

/-! ## `cache.Bolt` -/

/-- The struct `Bolt`.  `baseDir` is the content of the directory the path
names; `db` is the mutable state of the `RefCounter`, whose `Open` and `Close`
fields are `openDBReadOnly` and `dbClose` once `Load` has installed them. -/
structure Bolt where
  baseDir : Dir
  packageIndex : packageIndex
  db : RefCounter DB
deriving DecidableEq, Repr

/-- The function `NewBolt`. -/
def NewBolt (baseDir : Dir) : Bolt :=
  { baseDir := baseDir, packageIndex := [], db := { item := none, count := 0 } }

/-- The key `fmt.Sprintf("%s/%s/%s.proto", pkgName, chName, bundleName)` of a
record of the bundle partition. -/
def bundleKey (pkgName chName bundleName : Bytes) : Bytes :=
  pkgName ++ ascii "/" ++ chName ++ ascii "/" ++ bundleName ++ ascii ".proto"

/-- The key `fmt.Sprintf("%s.json", pkg.Name)` of an entry of the index partition. -/
def pkgIndexKey (pkgName : Bytes) : Bytes := pkgName ++ ascii ".json"

/-- The method `q.openDBReadOnly()`: opening fails when there is no store file. -/
def Bolt.openDBReadOnly (q : Bolt) : Unit → Except Err DB := fun _ =>
  match q.baseDir.db with
  | none => .error (Err.lib "open bolt.db: no such file or directory")
  | some db => .ok db

/-- The `Close` field that `Load` installs, `db.Close()` of a read-only store. -/
def Bolt.dbClose : Option DB → Option Err := fun _ => none

/-- The bbolt method `db.View(fn)`: runs `fn` on a read-only view of the store
and returns its error. -/
def DB.View {σ : Type} (db : DB) (fn : DB → σ → Option Err × σ) (s : σ) : Option Err × σ :=
  fn db s

/-- The method `q.loadAPIBundle`: result, new state of `q`, calls made by the
`RefCounter`.  The body of `With` reads the store; its state is the local
variable `apiBundle`. -/
def Bolt.loadAPIBundle {FS : Type} (c : Collab FS) (q : Bolt)
    (pkgName chName bundleName : Bytes) : Except Err ApiBundle × Bolt × List Call :=
  let r := q.db.With q.openDBReadOnly Bolt.dbClose id
    (fun db apiBundle =>
      db.View (fun txn apiBundle =>
        match txn.bundles.Get (bundleKey pkgName chName bundleName) with
        | none =>
          (some (Err.errorf "bundle %q not found in channel %q in package %q"
            [bundleName, chName, pkgName]), apiBundle)
        | some val =>
          match c.Unmarshal val with
          | .error err => (some err, apiBundle)
          | .ok b => (none, b)) apiBundle)
    ApiBundle.zero
  match r.err with
  | some err => (.error err, { q with db := r.rc }, r.calls)
  | none => (.ok r.user, { q with db := r.rc }, r.calls)

/-- The function literal that `SendBundles` passes to `bucket.ForEach`, for a
sender whose `Send` acts on a state `σ`. -/
def Bolt.SendBundles.each {FS σ : Type} (c : Collab FS)
    (Send : ApiBundle → σ → Option Err × σ) (_k val : Bytes) (s : σ) : Option Err × σ :=
  match c.Unmarshal val with
  | .error err => (some err, s)
  | .ok apiBundle =>
    let apiBundle :=
      if apiBundle.BundlePath ≠ [] then { apiBundle with CsvJson := [], Object := [] }
      else apiBundle
    match Send apiBundle s with
    | (some err, s1) => (some err, s1)
    | (none, s1) => (none, s1)

/-- The method `q.SendBundles(ctx, stream)`: result, new state of `q`, new state
of the sender, calls made by the `RefCounter`.  The result of `bucket.ForEach`
is dropped and the view returns nil, as in the source. -/
def Bolt.SendBundles {FS σ : Type} (c : Collab FS) (q : Bolt)
    (Send : ApiBundle → σ → Option Err × σ) (s : σ) : Option Err × Bolt × σ × List Call :=
  let r := q.db.With q.openDBReadOnly Bolt.dbClose id
    (fun db s =>
      db.View (fun txn s =>
        match txn.bundles.ForEach (Bolt.SendBundles.each c Send) s with
        | (_, s1) => (none, s1)) s)
    s
  (r.err, { q with db := r.rc }, r.user, r.calls)

/-- The method `q.GetBundle(ctx, pkgName, channelName, csvName)`: result, new
state of `q`, calls made by the `RefCounter`. -/
def Bolt.GetBundle {FS : Type} (c : Collab FS) (q : Bolt)
    (pkgName channelName csvName : Bytes) : Except Err ApiBundle × Bolt × List Call :=
  match q.packageIndex.get pkgName with
  | none => (.error (Err.errorf "package %q not found" [pkgName]), q, [])
  | some pkg =>
    match pkg.Channels.get channelName with
    | none =>
      (.error (Err.errorf "package %q, channel %q not found" [pkgName, channelName]), q, [])
    | some ch =>
      match ch.Bundles.get csvName with
      | none =>
        (.error (Err.errorf "package %q, channel %q, bundle %q not found"
          [pkgName, channelName, csvName]), q, [])
      | some b =>
        match q.loadAPIBundle c pkg.Name ch.Name b.Name with
        | (.error err, q1, t) => (.error (Err.wrapf "load bundle %q: %v" [b.Name] err), q1, t)
        | (.ok apiBundle, q1, t) => (.ok { apiBundle with Replaces := [], Skips := [] }, q1, t)

/-! ### The digest -/

/-- The constant `offset64` of `hash/fnv`. -/
def offset64 : Nat := 14695981039346656037

/-- The constant `prime64` of `hash/fnv`. -/
def prime64 : Nat := 1099511628211

/-- The function `fnv.New64a`: the initial state of the 64-bit FNV-1a hash. -/
def New64a : Nat := offset64

/-- The method `(*sum64a).Write`: for each byte, xor it into the state and
multiply by the prime, in `uint64`. -/
def sum64a.Write (h : Nat) (data : Bytes) : Nat :=
  data.foldl (fun h c => ((h ^^^ c.val) * prime64) % 2 ^ 64) h

/-- The byte of `h` that starts at bit `shift`. -/
def byteAt (h shift : Nat) : Byte := Fin.ofNat ((h >>> shift) % 256)

/-- The method `(*sum64a).Sum(nil)`: the eight bytes of the state, the most
significant first. -/
def sum64a.Sum (h : Nat) : Bytes :=
  [byteAt h 56, byteAt h 48, byteAt h 40, byteAt h 32, byteAt h 24, byteAt h 16, byteAt h 8,
    byteAt h 0]

/-- One lower-case hexadecimal digit, for a value below 16. -/
def hexDigit (n : Nat) : Byte := if n < 10 then Fin.ofNat (48 + n) else Fin.ofNat (87 + n)

/-- The result of `fmt.Sprintf("%x", b)` for a byte slice: two digits per byte. -/
def Sprintf_x : Bytes → Bytes
  | [] => []
  | b :: rest => hexDigit (b.val / 16) :: hexDigit (b.val % 16) :: Sprintf_x rest

/-- The table `asciiSpace` of package `strings`. -/
def asciiSpace (c : Byte) : Bool :=
  c.val = 9 || c.val = 10 || c.val = 11 || c.val = 12 || c.val = 13 || c.val = 32

/-- The function `strings.TrimSpace`: the two loops over ASCII bytes, and the
fall back to the Unicode functions at the first byte that is not ASCII. -/
def TrimSpace {FS : Type} (c : Collab FS) (s : Bytes) : Bytes :=
  let fromStart := s.dropWhile asciiSpace
  match fromStart with
  | [] => []
  | b :: _ =>
    if b.val ≥ 128 then c.TrimFunc fromStart
    else
      let toStop := (fromStart.reverse.dropWhile asciiSpace).reverse
      match toStop.getLast? with
      | none => []
      | some e => if e.val ≥ 128 then c.TrimRightFunc toStop else toStop

/-- The method `q.existingDigest()`. -/
def Bolt.existingDigest {FS : Type} (c : Collab FS) (q : Bolt) : Except Err Bytes :=
  match q.baseDir.digest with
  | none => .error (Err.lib "open bolt.digest: no such file or directory")
  | some existingDigestBytes => .ok (TrimSpace c existingDigestBytes)

/-- The function literal that `computeDigest` passes to `ForEach`: writes the
key and then the value to the hash. -/
def Bolt.computeDigest.each (k v : Bytes) (h : Nat) : Option Err × Nat :=
  (none, sum64a.Write (sum64a.Write h k) v)

/-- The method `q.computeDigest(fbcFsys)`.  `fsToTar` hands the bytes it writes
to the hash. -/
def Bolt.computeDigest {FS : Type} (c : Collab FS) (q : Bolt) (fbcFsys : FS) : Except Err Bytes :=
  let h0 := sum64a.Write New64a (ascii "bolt")
  match c.fsToTar fbcFsys with
  | .error err => .error err
  | .ok tar =>
    let h1 := sum64a.Write h0 tar
    match q.openDBReadOnly () with
    | .error err => .error err
    | .ok db =>
      match db.View (fun tx h =>
          match tx.packageIndices.ForEach Bolt.computeDigest.each h with
          | (some err, h2) => (some err, h2)
          | (none, h2) =>
            match tx.bundles.ForEach Bolt.computeDigest.each h2 with
            | (some err, h3) => (some err, h3)
            | (none, h3) => (none, h3)) h1 with
      | (some err, _) => .error (Err.wrapf "compute hash: %v" [] err)
      | (none, h4) => .ok (Sprintf_x (sum64a.Sum h4))

/-- The method `q.CheckIntegrity(fbcFsys)`. -/
def Bolt.CheckIntegrity {FS : Type} (c : Collab FS) (q : Bolt) (fbcFsys : FS) : Option Err :=
  match q.existingDigest c with
  | .error err => some (Err.wrapf "read existing cache digest: %v" [] err)
  | .ok existingDigest =>
    match q.computeDigest c fbcFsys with
    | .error err => some (Err.wrapf "compute digest: %v" [] err)
    | .ok computedDigest =>
      if existingDigest ≠ computedDigest then
        some (Err.errorf
          "cache requires rebuild: cache reports digest as %q, but computed digest is %q"
          [existingDigest, computedDigest])
      else none

/-! ### `Build` and `Load` -/

/-- The innermost loop of `Build`: one record of the bundle partition per bundle
of the channel. -/
def Bolt.Build.bundles {FS : Type} (c : Collab FS) (pkgName chName : Bytes) :
    List ModelBundle → Bucket → Except Err Bucket
  | [], bundleBucket => .ok bundleBucket
  | b :: rest, bundleBucket =>
    match c.ConvertModelBundleToAPIBundle b with
    | .error err => .error err
    | .ok apiBundle =>
      match c.Marshal apiBundle with
      | .error err => .error err
      | .ok bundleBytes =>
        match bundleBucket.Put (bundleKey pkgName chName b.Name) bundleBytes with
        | .error err => .error err
        | .ok bucket1 => Bolt.Build.bundles c pkgName chName rest bucket1

/-- The loop of `Build` over the channels of a package. -/
def Bolt.Build.channels {FS : Type} (c : Collab FS) (pkgName : Bytes) :
    List ModelChannel → Bucket → Except Err Bucket
  | [], bundleBucket => .ok bundleBucket
  | ch :: rest, bundleBucket =>
    match c.Head ch with
    | .error err => .error err
    | .ok _ =>
      match Bolt.Build.bundles c pkgName ch.Name ch.Bundles bundleBucket with
      | .error err => .error err
      | .ok bucket1 => Bolt.Build.channels c pkgName rest bucket1

/-- The loop of `Build` over the packages of the model, inside `db.Update`:
the two buckets after the loop, or the first error. -/
def Bolt.Build.packages {FS : Type} (c : Collab FS) (pkgs : GoMap cPkg) :
    Model → Bucket → Bucket → Except Err (Bucket × Bucket)
  | [], pkgIdxBucket, bundleBucket => .ok (pkgIdxBucket, bundleBucket)
  | pkg :: rest, pkgIdxBucket, bundleBucket =>
    match c.jsonEncode ((pkgs.get pkg.Name).getD cPkg.zero) with
    | .error err => .error err
    | .ok pkgIndexBuf =>
      match pkgIdxBucket.Put (pkgIndexKey pkg.Name) pkgIndexBuf with
      | .error err => .error err
      | .ok idx1 =>
        match Bolt.Build.channels c pkg.Name pkg.Channels bundleBucket with
        | .error err => .error err
        | .ok bucket1 => Bolt.Build.packages c pkgs rest idx1 bucket1

/-- The method `q.Build(fbcFsys)`: result and new state of `q`.  The update is
one transaction, so the store file holds both buckets or is not there (the
empty file that a failed update leaves behind is not represented); creating a
bucket fails on a store that already holds it. -/
def Bolt.Build {FS : Type} (c : Collab FS) (q : Bolt) (fbcFsys : FS) : Option Err × Bolt :=
  match c.ensureEmptyDir q.baseDir with
  | (some err, dir1) =>
    (some (Err.wrapf "ensure clean base directory: %v" [] err), { q with baseDir := dir1 })
  | (none, dir1) =>
    match c.LoadModel fbcFsys with
    | .error err => (some err, { q with baseDir := dir1 })
    | .ok fbcModel =>
      match packagesFromModel c fbcModel [] with
      | .error err => (some err, { q with baseDir := dir1 })
      | .ok pkgs =>
        match dir1.db with
        | some _ => (some (Err.lib "bucket already exists"), { q with baseDir := dir1 })
        | none =>
          match Bolt.Build.packages c pkgs fbcModel [] [] with
          | .error err => (some err, { q with baseDir := dir1 })
          | .ok (pkgIdxBucket, bundleBucket) =>
            let q1 : Bolt :=
              { q with baseDir :=
                  { dir1 with db := some { packageIndices := pkgIdxBucket, bundles := bundleBucket } } }
            match q1.computeDigest c fbcFsys with
            | .error err => (some err, q1)
            | .ok digest => (none, { q1 with baseDir := { q1.baseDir with digest := some digest } })

/-- The function literal that `Load` passes to `bucket.ForEach`. -/
def Bolt.Load.each {FS : Type} (c : Collab FS) (_k val : Bytes) (pkgs : GoMap cPkg) :
    Option Err × GoMap cPkg :=
  match c.jsonDecode val with
  | .error err => (some err, pkgs)
  | .ok idxPkg => (none, pkgs.set idxPkg.Name idxPkg)

/-- The method `q.Load()`: result and new state of `q`. -/
def Bolt.Load {FS : Type} (c : Collab FS) (q : Bolt) : Option Err × Bolt :=
  let rcdb : RefCounter DB := { item := none, count := 0 }
  let r := rcdb.With q.openDBReadOnly Bolt.dbClose id
    (fun db pkgs =>
      db.View (fun txn pkgs =>
        match txn.packageIndices.ForEach (Bolt.Load.each c) pkgs with
        | (some err, pkgs1) => (some err, pkgs1)
        | (none, pkgs1) => (none, pkgs1)) pkgs)
    []
  match r.err with
  | some err => (some err, q)
  | none => (none, { q with db := r.rc, packageIndex := r.user })

/-! ## A small instance of the collaborators, for the examples -/

/-- A source filesystem reduced to what the collaborators make of it: the
model it decodes to and the archive bytes it is walked into. -/
structure Demo.FS where
  model : Model
  tar : Bytes
deriving DecidableEq, Repr

/-- A dictionary coder: a value is encoded as its position in `table`, and
values outside the table cannot be encoded. -/
def Demo.encode {α : Type} [DecidableEq α] (table : List α) (a : α) : Except Err Bytes :=
  if table.indexOf a < table.length then .ok [Fin.ofNat (table.indexOf a)]
  else .error (Err.lib "value not in the table")

/-- The decoder of the dictionary coder. -/
def Demo.decode {α : Type} (table : List α) : Bytes → Except Err α
  | [i] =>
    match table.get? i.val with
    | some a => .ok a
    | none => .error (Err.lib "position not in the table")
  | _ => .error (Err.lib "malformed input")

/-- The record a model bundle converts to, field by field. -/
def Demo.convert (b : ModelBundle) : ApiBundle :=
  { CsvName := b.Name, PackageName := b.Package, ChannelName := b.Channel, CsvJson := b.CsvJSON,
    Object := b.Objects, BundlePath := b.Image, Version := b.Version, SkipRange := b.SkipRange,
    Replaces := b.Replaces, Skips := b.Skips }

/-- Collaborators for the examples: dictionary coders over the given tables,
a cache directory that is left as it is, and the first bundle of a channel as
its head. -/
def Demo.collab (records : List ApiBundle) (indices : List cPkg) : Collab Demo.FS :=
  { ensureEmptyDir := fun dir => (none, dir)
    LoadModel := fun fs => .ok fs.model
    Head := fun ch =>
      match ch.Bundles with
      | [] => .error (Err.lib "no channel head found in graph")
      | b :: _ => .ok b
    ConvertModelBundleToAPIBundle := fun b => .ok (Demo.convert b)
    Marshal := Demo.encode records
    Unmarshal := Demo.decode records
    jsonEncode := Demo.encode indices
    jsonDecode := Demo.decode indices
    fsToTar := fun fs => .ok fs.tar
    TrimFunc := fun s => s
    TrimRightFunc := fun s => s }

/-- A record with an external content locator and embedded content. -/
def Demo.record : ApiBundle :=
  { CsvName := ascii "b", PackageName := ascii "p", ChannelName := ascii "c",
    CsvJson := ascii "{}", Object := [ascii "{}"], BundlePath := ascii "quay.io/p/b",
    Version := ascii "1.0.0", SkipRange := [], Replaces := ascii "a", Skips := [ascii "z"] }

/-- The index record of bundle `b`. -/
def Demo.idxBundle : cBundle :=
  { Name := ascii "b", Version := ascii "1.0.0", Replaces := ascii "a", Skips := [ascii "z"],
    SkipRange := [] }

/-- The index record of channel `c`. -/
def Demo.idxChannel : cChannel :=
  { Name := ascii "c", Head := ascii "b", Bundles := [(ascii "b", Demo.idxBundle)] }

/-- The index record of package `p`. -/
def Demo.idxPkg : cPkg :=
  { Name := ascii "p", DefaultChannel := ascii "c", Channels := [(ascii "c", Demo.idxChannel)] }

/-- An index with the one package `p`, channel `c`, bundle `b`. -/
def Demo.index : packageIndex := [(ascii "p", Demo.idxPkg)]

/-- A loaded cache whose store holds `Demo.record` under the key of `p/c/b`. -/
def Demo.bolt : Bolt :=
  { baseDir := { db := some { packageIndices := [],
                              bundles := [(bundleKey (ascii "p") (ascii "c") (ascii "b"), [0])] },
                 digest := none }
    packageIndex := Demo.index
    db := { item := none, count := 0 } }

/-- A loaded cache whose store holds one record that does not decode. -/
def Demo.corrupt : Bolt :=
  { baseDir := { db := some { packageIndices := [],
                              bundles := [(bundleKey (ascii "p") (ascii "c") (ascii "b"), [7, 7])] },
                 digest := none }
    packageIndex := Demo.index
    db := { item := none, count := 0 } }

/-! ## The input of the digest and its single-byte changes -/

/-- The bytes of a bucket in the order `computeDigest` writes them to the hash:
key, value, key, value, and so on. -/
def Bucket.stream : Bucket → Bytes
  | [] => []
  | (k, v) :: rest => k ++ v ++ Bucket.stream rest

/-- All the bytes `computeDigest` writes to the hash: the format tag, the
archive of the source filesystem, the index partition, the bundle partition. -/
def digestInput (tar : Bytes) (db : DB) : Bytes :=
  ascii "bolt" ++ tar ++ db.packageIndices.stream ++ db.bundles.stream

/-- The digest text `computeDigest` returns for the given archive and store. -/
def digestOf (tar : Bytes) (db : DB) : Bytes :=
  Sprintf_x (sum64a.Sum (sum64a.Write New64a (digestInput tar db)))

/-- The byte string `y` is `x` with exactly one byte replaced by a different one. -/
def oneByteReplaced (x y : Bytes) : Prop :=
  ∃ (front back : Bytes) (b b1 : Byte), b ≠ b1 ∧ x = front ++ b :: back ∧ y = front ++ b1 :: back

/-- The bucket `y` is `x` with one byte of one stored value replaced. -/
def oneValueByteReplaced (x y : Bucket) : Prop :=
  ∃ (xs ys : Bucket) (k v v1 : Bytes), oneByteReplaced v v1 ∧
    x = xs ++ (k, v) :: ys ∧ y = xs ++ (k, v1) :: ys

/-- A single-byte change, with all lengths unchanged, of the archive bytes of
the source filesystem or of one stored value of the store. -/
def SingleByteChange (tar : Bytes) (db : DB) (tar1 : Bytes) (db1 : DB) : Prop :=
  (oneByteReplaced tar tar1 ∧ db1 = db) ∨
  (tar1 = tar ∧ oneValueByteReplaced db.packageIndices db1.packageIndices ∧
    db1.bundles = db.bundles) ∨
  (tar1 = tar ∧ db1.packageIndices = db.packageIndices ∧
    oneValueByteReplaced db.bundles db1.bundles)

/-- The model bundle `b` of package `p`, channel `c`. -/
def Demo.modelBundle : ModelBundle :=
  { Package := ascii "p", Channel := ascii "c", Name := ascii "b", Image := ascii "quay.io/p/b",
    Replaces := ascii "a", Skips := [ascii "z"], SkipRange := [], CsvJSON := ascii "{}",
    Objects := [ascii "{}"], Version := ascii "1.0.0" }

/-- A model with the one package `p`, channel `c`, bundle `b`. -/
def Demo.model : Model :=
  [{ Name := ascii "p", DefaultChannel := ascii "c",
     Channels := [{ Name := ascii "c", Bundles := [Demo.modelBundle] }] }]

/-- A source filesystem that decodes to `Demo.model`. -/
def Demo.fs : Demo.FS := { model := Demo.model, tar := ascii "p.yaml" }

/-- The same source filesystem with one byte of its content changed. -/
def Demo.fs1 : Demo.FS := { model := Demo.model, tar := ascii "p.yamm" }

/-- The collaborators whose tables hold the record and the index of `Demo.model`. -/
def Demo.c : Collab Demo.FS := Demo.collab [Demo.convert Demo.modelBundle] [Demo.idxPkg]

/-- A cache over an empty directory, before `Build`. -/
def Demo.empty : Bolt := NewBolt { db := none, digest := none }

/-! ## Well-formed models and the round trip through the store -/

/-- The bytes `Build` stores for a model bundle: the conversion to `api.Bundle`
followed by `proto.Marshal`. -/
def Bolt.Build.record {FS : Type} (c : Collab FS) (b : ModelBundle) : Except Err Bytes :=
  match c.ConvertModelBundleToAPIBundle b with
  | .error err => .error err
  | .ok apiBundle => c.Marshal apiBundle

/-- The bundles of a channel form a map keyed by name: no two have the same name. -/
def ModelChannel.WellFormed (ch : ModelChannel) : Prop :=
  (ch.Bundles.map (fun b => b.Name)).Nodup

/-- The channels of a package form a map keyed by name, and each is well formed. -/
def ModelPackage.WellFormed (p : ModelPackage) : Prop :=
  (p.Channels.map (fun ch => ch.Name)).Nodup ∧ ∀ ch ∈ p.Channels, ch.WellFormed

/-- The packages of a model form a map keyed by name, and each is well formed. -/
def WellFormedModel (m : Model) : Prop :=
  (m.map (fun p => p.Name)).Nodup ∧ ∀ p ∈ m, p.WellFormed

/-- The bundle `d` of package `a/b`, channel `c`. -/
def Demo.bundle1 : ModelBundle :=
  { Package := ascii "a/b", Channel := ascii "c", Name := ascii "d", Image := [],
    Replaces := [], Skips := [], SkipRange := [], CsvJSON := ascii "{}", Objects := [],
    Version := ascii "1.0.0" }

/-- The bundle `d` of package `a`, channel `b/c`. -/
def Demo.bundle2 : ModelBundle :=
  { Package := ascii "a", Channel := ascii "b/c", Name := ascii "d", Image := [],
    Replaces := [], Skips := [], SkipRange := [], CsvJSON := ascii "{}", Objects := [],
    Version := ascii "2.0.0" }

/-- The package `a/b` with its channel `c`. -/
def Demo.pkg1 : ModelPackage :=
  { Name := ascii "a/b", DefaultChannel := ascii "c",
    Channels := [{ Name := ascii "c", Bundles := [Demo.bundle1] }] }

/-- The package `a` with its channel `b/c`. -/
def Demo.pkg2 : ModelPackage :=
  { Name := ascii "a", DefaultChannel := ascii "b/c",
    Channels := [{ Name := ascii "b/c", Bundles := [Demo.bundle2] }] }

/-- The index record that `packagesFromModel` derives for a package of a model
(the zero record when the derivation fails). -/
def Demo.idxOf (m : Model) (p : ModelPackage) : cPkg :=
  match packagesFromModel (Demo.collab [] []) m [] with
  | .error _ => cPkg.zero
  | .ok pkgs => (pkgs.get p.Name).getD cPkg.zero

/-- The collaborators whose tables hold the records and the index of a model of
the two packages `a/b` and `a`. -/
def Demo.c2 (m : Model) : Collab Demo.FS :=
  Demo.collab [Demo.convert Demo.bundle1, Demo.convert Demo.bundle2]
    [Demo.idxOf m Demo.pkg1, Demo.idxOf m Demo.pkg2]

/-- A model of the two packages `a/b` and `a`, whose bundles share one key. -/
def Demo.model2 : Model := [Demo.pkg1, Demo.pkg2]

/-- The same model, ranged over in the other order. -/
def Demo.model3 : Model := [Demo.pkg2, Demo.pkg1]

/-! ## The records `SendBundles` hands to the sender -/

/-- The record `SendBundles` makes of a decoded record before it sends it:
embedded content is cleared when the record names an external bundle path. -/
def Bolt.SendBundles.prepared (r : ApiBundle) : ApiBundle :=
  if r.BundlePath ≠ [] then { r with CsvJson := [], Object := [] } else r

/-- The record `SendBundles` sends for a stored value (the zero record for a
value that does not decode, which is never sent). -/
def Bolt.SendBundles.sent {FS : Type} (c : Collab FS) (val : Bytes) : ApiBundle :=
  match c.Unmarshal val with
  | .error _ => ApiBundle.zero
  | .ok r => Bolt.SendBundles.prepared r

/-! ## `semver` values, as `alpha/fbc/v2` and the migration use them -/

/-- The fields of a `semver.Version` that its methods `Major`, `Minor`, `Patch`,
`Prerelease`, `Metadata` and `String` read. -/
structure Version where
  major : Nat
  minor : Nat
  patch : Nat
  pre : Bytes
  metadata : Bytes
deriving DecidableEq, Repr

/-- The zero value `semver.Version{}`, which indexing a map at an absent key returns. -/
def Version.zero : Version := { major := 0, minor := 0, patch := 0, pre := [], metadata := [] }

/-- The text `%d` prints for an unsigned number. -/
def decimal (n : Nat) : Bytes := ascii (Nat.repr n)

/-- The method `(Version).String`, which `%s` prints: `major.minor.patch`, then
`-pre` and `+metadata` when they are set. -/
def Version.String (v : Version) : Bytes :=
  decimal v.major ++ ascii "." ++ decimal v.minor ++ ascii "." ++ decimal v.patch ++
    (if v.pre ≠ [] then ascii "-" ++ v.pre else []) ++
    (if v.metadata ≠ [] then ascii "+" ++ v.metadata else [])

/-- The function `semver.New`. -/
def semver.New (major minor patch : Nat) (pre metadata : Bytes) : Version :=
  { major := major, minor := minor, patch := patch, pre := pre, metadata := metadata }

/-- The functions of package `semver` that read a text, for a type `C` of
parsed constraints: `NewVersion`, `NewConstraint`, and `Check`, which tells
whether a constraint accepts a version. -/
structure Semver (C : Type) where
  NewVersion : Bytes → Except Err Version
  NewConstraint : Bytes → Except Err C
  Check : C → Version → Bool

/-! ## `alpha/fbc/v2`: channel entries -/

/-- The struct `ChannelEntry` of `alpha/fbc/v2/channel.go`. -/
structure ChannelEntry (C : Type) where
  Version : Version
  UpgradesFrom : C
deriving Repr

/-- The local struct `entryUnmarshaler` of `UnmarshalJSON`; `UpgradesFrom` is
empty when the JSON text omits `upgradesFrom`. -/
structure entryUnmarshaler where
  Version : Version
  UpgradesFrom : Bytes
deriving DecidableEq, Repr

/-- The function `minVersionFrom`. -/
def minVersionFrom (v : Version) : Version :=
  if v.major = 0 then
    if v.minor = 0 then v
    else semver.New 0 v.minor 0 [] []
  else semver.New v.major 0 0 [] []

/-- The text `fmt.Sprintf(">=%s <%s", minVersionFrom(v), v)`. -/
def defaultUpgradesFrom (v : Version) : Bytes :=
  ascii ">=" ++ (minVersionFrom v).String ++ ascii " <" ++ v.String

/-- The method `(*ChannelEntry).UnmarshalJSON`: result and new value of the
receiver.  `jsonUnmarshal` is `json.Unmarshal` into an `entryUnmarshaler`. -/
def ChannelEntry.UnmarshalJSON {C : Type} (sem : Semver C)
    (jsonUnmarshal : Bytes → Except Err entryUnmarshaler) (c : ChannelEntry C) (bytes : Bytes) :
    Option Err × ChannelEntry C :=
  match jsonUnmarshal bytes with
  | .error err => (some err, c)
  | .ok eu =>
    let c1 : ChannelEntry C := { c with Version := eu.Version }
    let upgradesFrom :=
      if eu.UpgradesFrom = [] then defaultUpgradesFrom eu.Version else eu.UpgradesFrom
    match sem.NewConstraint upgradesFrom with
    | .error err => (some err, c1)
    | .ok cf => (none, { c1 with UpgradesFrom := cf })

/-! ## `alpha/action/migrations`: the migration to the v2 schemas -/

/-- Modelled from the spec: the constant `property.TypePackage`. -/
def TypePackage : Bytes := ascii "olm.package"

/-- Modelled from the spec: the constant `property.TypeCSVMetadata`. -/
def TypeCSVMetadata : Bytes := ascii "olm.csv.metadata"

/-- Modelled from the spec: the constant `property.TypeGVK`. -/
def TypeGVK : Bytes := ascii "olm.gvk"

/-- Modelled from the spec: the constant `property.TypeBundleObject`. -/
def TypeBundleObject : Bytes := ascii "olm.bundle.object"

/-- Modelled from the spec: the constant `property.TypeGVKRequired`. -/
def TypeGVKRequired : Bytes := ascii "olm.gvk.required"

/-- Modelled from the spec: the constant `property.TypePackageRequired`. -/
def TypePackageRequired : Bytes := ascii "olm.package.required"

/-- Modelled from the spec: the constant `property.TypeConstraint`. -/
def TypeConstraint : Bytes := ascii "olm.constraint"

/-- Modelled from the spec: the type declaration `property.Property`; the field
`Type` of the source is `Type_` here. -/
structure Property where
  Type_ : Bytes
  Value : Bytes
deriving DecidableEq, Repr

/-- Modelled from the spec: the type declaration `property.Package`, the value
of an `olm.package` property. -/
structure PackageProperty where
  PackageName : Bytes
  Version : Bytes
deriving DecidableEq, Repr

/-- Modelled from the spec: the type declaration `declcfg.RelatedImage`. -/
structure RelatedImage where
  Name : Bytes
  Image : Bytes
deriving DecidableEq, Repr

/-- Modelled from the spec: the type declaration `declcfg.Bundle`, with the
fields the migration reads. -/
structure DeclBundle where
  Name : Bytes
  Package : Bytes
  Image : Bytes
  Properties : List Property
  RelatedImages : List RelatedImage
deriving DecidableEq, Repr

/-- Modelled from the spec: the type declaration `declcfg.ChannelEntry`. -/
structure DeclChannelEntry where
  Name : Bytes
  Replaces : Bytes
  Skips : List Bytes
  SkipRange : Bytes
deriving DecidableEq, Repr

/-- Modelled from the spec: the type declaration `declcfg.Channel`. -/
structure DeclChannel where
  Name : Bytes
  Package : Bytes
  Entries : List DeclChannelEntry
  Properties : List Property
deriving DecidableEq, Repr

/-- The struct `Bundle` of `alpha/fbc/v2/bundle.go`, without its annotations. -/
structure BundleV2 where
  Schema : Bytes
  Package : Bytes
  Name : Bytes
  Version : Version
  Release : Nat
  URI : Bytes
  RelatedURIs : List Bytes
  Properties : GoMap Bytes
  Constraints : GoMap Bytes
deriving DecidableEq, Repr

/-- The struct `Channel` of `alpha/fbc/v2/channel.go`, without its annotations. -/
structure ChannelV2 (C : Type) where
  Schema : Bytes
  Package : Bytes
  Name : Bytes
  Entries : List (ChannelEntry C)
  Properties : GoMap Bytes

/-- The functions of `encoding/json` that the migration calls: `Unmarshal` into
a `property.Package`, and `Marshal` of a slice of raw messages, whose error
the source drops. -/
structure MigrationJSON where
  UnmarshalPackage : Bytes → Except Err PackageProperty
  MarshalList : List Bytes → Bytes

/-- How a function literal of the migration ends: it returns, or the program
panics. -/
inductive Outcome (σ : Type) where
  | returns (s : σ)
  | panics (msg : String)

/-- The local variables of one call of the function literal over a bundle that
its loop over the properties sets; `vers` is `none` for the nil pointer. -/
structure BundleVars where
  vers : Option Version
  properties : GoMap Bytes
  rawListProperties : GoMap (List Bytes)
  rawListConstraints : GoMap (List Bytes)
deriving DecidableEq, Repr

/-- The statement `m[k] = append(m[k], v)`. -/
def appendAt (m : GoMap (List Bytes)) (k v : Bytes) : GoMap (List Bytes) :=
  m.set k ((m.get k).getD [] ++ [v])

/-- The loop of `v2` over the properties of a bundle: the variables after the
loop, or the error the function literal appends before it returns early. -/
def v2.bundleProperties {C : Type} (sem : Semver C) (js : MigrationJSON) (bName : Bytes) :
    List Property → BundleVars → Except Err BundleVars
  | [], vars => .ok vars
  | p :: rest, vars =>
    if p.Type_ = TypePackage then
      match js.UnmarshalPackage p.Value with
      | .error err => .error (Err.wrapf "could not migrate bundle %q: %v" [bName] err)
      | .ok pkgProp =>
        match sem.NewVersion pkgProp.Version with
        | .error err => .error (Err.wrapf "could not migrate bundle %q: %v" [bName] err)
        | .ok vers => v2.bundleProperties sem js bName rest { vars with vers := some vers }
    else if p.Type_ = TypeCSVMetadata then
      v2.bundleProperties sem js bName rest
        { vars with properties := vars.properties.set p.Type_ p.Value }
    else if p.Type_ = TypeGVK ∨ p.Type_ = TypeBundleObject then
      v2.bundleProperties sem js bName rest
        { vars with rawListProperties := appendAt vars.rawListProperties p.Type_ p.Value }
    else if p.Type_ = TypeGVKRequired ∨ p.Type_ = TypePackageRequired ∨ p.Type_ = TypeConstraint
    then
      v2.bundleProperties sem js bName rest
        { vars with rawListConstraints := appendAt vars.rawListConstraints p.Type_ p.Value }
    else
      .error (Err.errorf
        "could not migrate bundle %q: unknown property type %q cannot be translated to v2 properties format"
        [bName, p.Type_])

/-- The loops `for k, v := range rawList... { m[k], _ = json.Marshal(v) }`. -/
def v2.marshalLists (js : MigrationJSON) : GoMap (List Bytes) → GoMap Bytes → GoMap Bytes
  | [], m => m
  | (k, v) :: rest, m => v2.marshalLists js rest (m.set k (js.MarshalList v))

/-- Insertion into the sorted list of a set of strings. -/
def insertSorted (x : Bytes) : List Bytes → List Bytes
  | [] => [x]
  | y :: rest =>
    if x = y then y :: rest
    else if x < y then x :: y :: rest
    else y :: insertSorted x rest

/-- The set `relatedURIs` as `sets.List` returns it: sorted, each URI once. -/
def v2.relatedURIs : List RelatedImage → List Bytes → List Bytes
  | [], acc => acc
  | r :: rest, acc => v2.relatedURIs rest (insertSorted (ascii "docker://" ++ r.Image) acc)

/-- The state the function literals of `v2` share: the map `nameToVersion`,
the slice `errs`, and the slice `cfg.BundlesV2`. -/
structure MigrationState where
  nameToVersion : GoMap Version
  errs : List Err
  BundlesV2 : List BundleV2

/-- The name `fmt.Sprintf("%s-%s-%d", b.Package, vers, 1)` of a migrated bundle. -/
def v2.bundleName (pkg : Bytes) (vers : Version) : Bytes :=
  pkg ++ ascii "-" ++ vers.String ++ ascii "-" ++ decimal 1

/-- The function literal of `v2` over one bundle (001_v2.go:41-104).  It
dereferences `vers` at `nameToVersion[b.Name] = *vers`, which panics when no
`olm.package` property has set it. -/
def v2.bundle {C : Type} (sem : Semver C) (js : MigrationJSON) (st : MigrationState)
    (b : DeclBundle) : Outcome MigrationState :=
  match v2.bundleProperties sem js b.Name b.Properties
      { vers := none, properties := [], rawListProperties := [], rawListConstraints := [] } with
  | .error err => .returns { st with errs := st.errs ++ [err] }
  | .ok vars =>
    let properties := v2.marshalLists js vars.rawListProperties vars.properties
    let constraints := v2.marshalLists js vars.rawListConstraints []
    match vars.vers with
    | none => .panics "runtime error: invalid memory address or nil pointer dereference"
    | some vers =>
      let bundleV2 : BundleV2 :=
        { Schema := ascii "olm.bundle.v2"
          Package := b.Package
          Name := v2.bundleName b.Package vers
          Version := vers
          Release := 1
          URI := ascii "docker://" ++ b.Image
          RelatedURIs := v2.relatedURIs b.RelatedImages []
          Properties := properties
          Constraints := constraints }
      .returns { nameToVersion := st.nameToVersion.set b.Name vers
                 errs := st.errs
                 BundlesV2 := st.BundlesV2 ++ [bundleV2] }

/-- The call `slices.DeleteFunc(cfg.Bundles, ...)`: the function literal on
every bundle in order, until one panics. -/
def v2.bundles {C : Type} (sem : Semver C) (js : MigrationJSON) :
    List DeclBundle → MigrationState → Outcome MigrationState
  | [], st => .returns st
  | b :: rest, st =>
    match v2.bundle sem js st b with
    | .panics msg => .panics msg
    | .returns st1 => v2.bundles sem js rest st1

/-- The text `upgradesFromStr` that `v2` builds for a channel entry
(001_v2.go:112-129): the version of `Replaces`, a blank and the version of
each of `Skips`, a blank and `SkipRange`, or the impossible range when that
is all empty. -/
def v2.upgradesFromStr (nameToVersion : GoMap Version) (e : DeclChannelEntry) : Bytes :=
  let s0 : Bytes :=
    if e.Replaces ≠ [] then ((nameToVersion.get e.Replaces).getD Version.zero).String else []
  let s1 : Bytes :=
    e.Skips.foldl
      (fun s sk => s ++ ascii " " ++ ((nameToVersion.get sk).getD Version.zero).String) s0
  let s2 : Bytes := if e.SkipRange ≠ [] then s1 ++ ascii " " ++ e.SkipRange else s1
  if s2 = [] then ascii "<0.0.0 >0.0.0" else s2

/-- The loop of `v2` over the entries of a channel: the migrated entries, or
the error of the first constraint text that does not parse. -/
def v2.entries {C : Type} (sem : Semver C) (nameToVersion : GoMap Version) :
    List DeclChannelEntry → List (ChannelEntry C) → Except Err (List (ChannelEntry C))
  | [], entries => .ok entries
  | e :: rest, entries =>
    match sem.NewConstraint (v2.upgradesFromStr nameToVersion e) with
    | .error err => .error err
    | .ok upgradesFrom =>
      v2.entries sem nameToVersion rest
        (entries ++ [{ Version := (nameToVersion.get e.Name).getD Version.zero,
                       UpgradesFrom := upgradesFrom }])

/-- The loop over the properties of a channel, `rawListProperties[p.Type] =
append(rawListProperties[p.Type], p.Value)`. -/
def v2.channelProperties : List Property → GoMap (List Bytes) → GoMap (List Bytes)
  | [], m => m
  | p :: rest, m => v2.channelProperties rest (appendAt m p.Type_ p.Value)

/-- The function literal of `v2` over one channel (001_v2.go:109-161): the
slices `errs` and `cfg.ChannelsV2` after it. -/
def v2.channel {C : Type} (sem : Semver C) (js : MigrationJSON) (nameToVersion : GoMap Version)
    (errs : List Err) (ChannelsV2 : List (ChannelV2 C)) (c : DeclChannel) :
    List Err × List (ChannelV2 C) :=
  match v2.entries sem nameToVersion c.Entries [] with
  | .error err =>
    (errs ++ [Err.wrapf "count not migrate channel %q: %v" [c.Name] err], ChannelsV2)
  | .ok entries =>
    (errs, ChannelsV2 ++
      [{ Schema := ascii "olm.channel.v2"
         Package := c.Package
         Name := c.Name
         Entries := entries
         Properties := v2.marshalLists js (v2.channelProperties c.Properties []) [] }])

/-- The call `slices.DeleteFunc(cfg.Channels, ...)`. -/
def v2.channels {C : Type} (sem : Semver C) (js : MigrationJSON) (nameToVersion : GoMap Version) :
    List DeclChannel → List Err → List (ChannelV2 C) → List Err × List (ChannelV2 C)
  | [], errs, out => (errs, out)
  | c :: rest, errs, out =>
    match v2.channel sem js nameToVersion errs out c with
    | (errs1, out1) => v2.channels sem js nameToVersion rest errs1 out1

/-- Modelled from the spec: the type declaration `declcfg.DeclarativeConfig`,
with the fields the loops over bundles and channels read and write. -/
structure DeclarativeConfig (C : Type) where
  Channels : List DeclChannel
  Bundles : List DeclBundle
  ChannelsV2 : List (ChannelV2 C)
  BundlesV2 : List BundleV2

/-- The zero value `declcfg.Bundle{}`. -/
def DeclBundle.zero : DeclBundle :=
  { Name := [], Package := [], Image := [], Properties := [], RelatedImages := [] }

/-- The zero value `declcfg.Channel{}`. -/
def DeclChannel.zero : DeclChannel :=
  { Name := [], Package := [], Entries := [], Properties := [] }

/-- The function `v2` from its loop over the bundles on (001_v2.go:39-167):
result and new configuration, or a panic.  Each function literal returns true
for every element, so `slices.DeleteFunc` leaves the zero value in every
place of `cfg.Bundles` and of `cfg.Channels`, whose lengths the discarded
result does not change.  The first loop, over the packages, only appends to
`cfg.PackagesV2` and `cfg.IconsV2` and is left out. -/
def v2 {C : Type} (sem : Semver C) (js : MigrationJSON) (cfg : DeclarativeConfig C) :
    Outcome (Option Err × DeclarativeConfig C) :=
  match v2.bundles sem js cfg.Bundles
      { nameToVersion := [], errs := [], BundlesV2 := cfg.BundlesV2 } with
  | .panics msg => .panics msg
  | .returns st =>
    let cfg1 : DeclarativeConfig C :=
      { cfg with Bundles := cfg.Bundles.map (fun _ => DeclBundle.zero), BundlesV2 := st.BundlesV2 }
    if st.errs.length > 0 then
      .returns (some (Err.wrapf "error migrating bundles: %v" [] (Err.aggregate st.errs)), cfg1)
    else
      match v2.channels sem js st.nameToVersion cfg.Channels st.errs cfg.ChannelsV2 with
      | (errs, out) =>
        let cfg2 : DeclarativeConfig C :=
          { cfg1 with Channels := cfg.Channels.map (fun _ => DeclChannel.zero), ChannelsV2 := out }
        if errs.length > 0 then
          .returns (some (Err.wrapf "error migrating channels: %v" [] (Err.aggregate errs)), cfg2)
        else .returns (none, cfg2)

/-! ## A reading of `semver` texts, for the examples

The part of the `semver` package that the examples need, after its
documentation: a constraint text is a list of alternatives separated by `||`;
an alternative is a list of comparisons separated by blanks or commas, all of
which must hold; a comparison is an operator (none means equality) before a
version `major.minor.patch` with an optional `-prerelease` and `+metadata`; a
version with a prerelease is not accepted by a comparison whose version has
none.  Constraint texts outside this part (wildcards, `~`, `^`, hyphen ranges,
a blank between operator and version, versions without minor or patch
number, which the package reads as ranges) are rejected here. -/

/-- The value of a decimal digit. -/
def Demo.digit (c : Byte) : Option Nat :=
  if 48 ≤ c.val ∧ c.val ≤ 57 then some (c.val - 48) else none

/-- The number a text of decimal digits denotes, continuing from `n`. -/
def Demo.parseDigits : Bytes → Nat → Option Nat
  | [], n => some n
  | c :: rest, n =>
    match Demo.digit c with
    | none => none
    | some d => Demo.parseDigits rest (n * 10 + d)

/-- The function `strconv.ParseUint(s, 10, 64)`, without signs. -/
def Demo.ParseUint (s : Bytes) : Option Nat :=
  if s = [] then none
  else
    match Demo.parseDigits s 0 with
    | none => none
    | some n => if n < 2 ^ 64 then some n else none

/-- The text before the first byte `sep` and the text behind it, if there is one. -/
def Demo.cut (sep : Byte) : Bytes → Bytes × Option Bytes
  | [] => ([], none)
  | c :: rest =>
    if c = sep then ([], some rest)
    else
      match Demo.cut sep rest with
      | (front, back) => (c :: front, back)

/-- The parts of a text between the bytes `sep`. -/
def Demo.split (sep : Byte) : Bytes → Bytes → List Bytes
  | [], cur => [cur]
  | c :: rest, cur =>
    if c = sep then cur :: Demo.split sep rest [] else Demo.split sep rest (cur ++ [c])

/-- Whether a byte may stand in an identifier of a prerelease or of metadata:
a digit, a letter or `-`. -/
def Demo.identByte (c : Byte) : Bool :=
  (48 ≤ c.val && c.val ≤ 57) || (65 ≤ c.val && c.val ≤ 90) || (97 ≤ c.val && c.val ≤ 122) ||
    c.val = 45

/-- Whether a text is a list of identifiers between dots, none of them empty. -/
def Demo.identifiers (s : Bytes) : Bool :=
  (Demo.split 46 s []).all (fun part => part ≠ [] && part.all Demo.identByte)

/-- A version from its text: an optional `v`, the numbers `major`, `.minor`,
`.patch`, then `-prerelease` and `+metadata`.  With `short`, a missing minor
or patch number is 0; without it the three numbers must be there. -/
def Demo.readVersion (short : Bool) (s : Bytes) : Except Err Version :=
  let text : Bytes :=
    match s with
    | [] => []
    | c :: rest => if c.val = 118 then rest else c :: rest
  match Demo.cut 43 text with
  | (front, metadata) =>
    match Demo.cut 45 front with
    | (core, pre) =>
      if (metadata.map Demo.identifiers).getD true = false ∨
          (pre.map Demo.identifiers).getD true = false then
        .error (Err.lib "Invalid Semantic Version")
      else
        match (Demo.split 46 core []).map Demo.ParseUint with
        | [some major, some minor, some patch] =>
          .ok { major := major, minor := minor, patch := patch, pre := pre.getD [],
                metadata := metadata.getD [] }
        | [some major, some minor] =>
          if short then
            .ok { major := major, minor := minor, patch := 0, pre := pre.getD [],
                  metadata := metadata.getD [] }
          else .error (Err.lib "Invalid Semantic Version")
        | [some major] =>
          if short then
            .ok { major := major, minor := 0, patch := 0, pre := pre.getD [],
                  metadata := metadata.getD [] }
          else .error (Err.lib "Invalid Semantic Version")
        | _ => .error (Err.lib "Invalid Semantic Version")

/-- The function `semver.NewVersion`, which also reads `1` and `1.2`. -/
def Demo.NewVersion (s : Bytes) : Except Err Version := Demo.readVersion true s

/-- The function `comparePrePart` of `semver`: numbers compare as numbers and
come before other identifiers, which compare as texts. -/
def Demo.comparePrePart (s o : Bytes) : Ordering :=
  if s = o then .eq
  else if s = [] then .lt
  else if o = [] then .gt
  else
    match Demo.ParseUint s, Demo.ParseUint o with
    | none, none => if o < s then .gt else .lt
    | some _, none => .lt
    | none, some _ => .gt
    | some si, some oi => if oi < si then .gt else .lt

/-- The function `comparePrerelease` of `semver` once the first text has run
out of parts: each further part of the other text is compared with the empty
part. -/
def Demo.comparePreRest : List Bytes → Ordering
  | [] => .eq
  | o :: os =>
    match Demo.comparePrePart [] o with
    | .eq => Demo.comparePreRest os
    | d => d

/-- The function `comparePrerelease` of `semver`, on the parts between dots. -/
def Demo.comparePreParts : List Bytes → List Bytes → Ordering
  | [], os => Demo.comparePreRest os
  | s :: ss, [] =>
    match Demo.comparePrePart s [] with
    | .eq => Demo.comparePreParts ss []
    | d => d
  | s :: ss, o :: os =>
    match Demo.comparePrePart s o with
    | .eq => Demo.comparePreParts ss os
    | d => d

/-- The method `(*Version).Compare`. -/
def Demo.Compare (v o : Version) : Ordering :=
  if v.major ≠ o.major then (if v.major < o.major then .lt else .gt)
  else if v.minor ≠ o.minor then (if v.minor < o.minor then .lt else .gt)
  else if v.patch ≠ o.patch then (if v.patch < o.patch then .lt else .gt)
  else if v.pre = [] ∧ o.pre = [] then .eq
  else if v.pre = [] then .gt
  else if o.pre = [] then .lt
  else Demo.comparePreParts (Demo.split 46 v.pre []) (Demo.split 46 o.pre [])

/-- The operators of a comparison. -/
inductive Demo.Op where
  | eq
  | ne
  | gt
  | lt
  | ge
  | le
deriving DecidableEq, Repr

/-- One comparison of a constraint: an operator and a version. -/
structure Demo.Comparison where
  op : Demo.Op
  con : Version
deriving DecidableEq, Repr

/-- A parsed constraint: alternatives, each a list of comparisons. -/
abbrev Demo.Constraints := List (List Demo.Comparison)

/-- Whether the text `t` starts with the text `p`. -/
def Demo.startsWith : Bytes → Bytes → Bool
  | [], _ => true
  | _ :: _, [] => false
  | p :: ps, c :: cs => p = c && Demo.startsWith ps cs

/-- The operators as constraint texts write them, the longer ones first. -/
def Demo.ops : List (Bytes × Demo.Op) :=
  [(ascii ">=", .ge), (ascii "=>", .ge), (ascii "<=", .le), (ascii "=<", .le),
   (ascii "!=", .ne), (ascii ">", .gt), (ascii "<", .lt), (ascii "=", .eq)]

/-- One comparison from its text: the operator, if any, then the version. -/
def Demo.parseComparison (t : Bytes) : Except Err Demo.Comparison :=
  match Demo.ops.find? (fun o => Demo.startsWith o.1 t) with
  | some (text, op) =>
    match Demo.readVersion false (t.drop text.length) with
    | .error err => .error err
    | .ok v => .ok { op := op, con := v }
  | none =>
    match Demo.readVersion false t with
    | .error err => .error err
    | .ok v => .ok { op := .eq, con := v }

/-- The comparisons of one alternative, from their texts. -/
def Demo.parseComparisons : List Bytes → Except Err (List Demo.Comparison)
  | [] => .ok []
  | t :: rest =>
    match Demo.parseComparison t with
    | .error err => .error err
    | .ok cmp =>
      match Demo.parseComparisons rest with
      | .error err => .error err
      | .ok cmps => .ok (cmp :: cmps)

/-- The texts of an alternative between blanks and commas. -/
def Demo.fields : Bytes → Bytes → List Bytes
  | [], cur => if cur = [] then [] else [cur]
  | c :: rest, cur =>
    if c.val = 32 ∨ c.val = 44 then
      (if cur = [] then Demo.fields rest [] else cur :: Demo.fields rest [])
    else Demo.fields rest (cur ++ [c])

/-- The alternatives of a constraint text, between `||`; `bar` tells that the
byte before was a single `|`. -/
def Demo.alternatives : Bytes → Bool → Bytes → List Bytes
  | [], bar, cur => [if bar then cur ++ [124] else cur]
  | c :: rest, bar, cur =>
    if c.val = 124 then
      (if bar then cur :: Demo.alternatives rest false []
       else Demo.alternatives rest true cur)
    else Demo.alternatives rest false (if bar then cur ++ [124, c] else cur ++ [c])

/-- The alternatives of a constraint, each parsed; an alternative without a
comparison is an improper constraint. -/
def Demo.parseAlternatives : List Bytes → Except Err Demo.Constraints
  | [] => .ok []
  | a :: rest =>
    match Demo.fields a [] with
    | [] => .error (Err.lib "improper constraint")
    | f :: fs =>
      match Demo.parseComparisons (f :: fs) with
      | .error err => .error err
      | .ok cmps =>
        match Demo.parseAlternatives rest with
        | .error err => .error err
        | .ok alts => .ok (cmps :: alts)

/-- The function `semver.NewConstraint`. -/
def Demo.NewConstraint (s : Bytes) : Except Err Demo.Constraints :=
  Demo.parseAlternatives (Demo.alternatives s false [])

/-- Whether one comparison accepts a version. -/
def Demo.accepts (c : Demo.Comparison) (v : Version) : Bool :=
  if v.pre ≠ [] ∧ c.con.pre = [] then false
  else
    match c.op with
    | .eq => Demo.Compare v c.con = .eq
    | .ne => Demo.Compare v c.con ≠ .eq
    | .gt => Demo.Compare v c.con = .gt
    | .lt => Demo.Compare v c.con = .lt
    | .ge => Demo.Compare v c.con ≠ .lt
    | .le => Demo.Compare v c.con ≠ .gt

/-- The method `(Constraints).Check`: some alternative has all its comparisons
accept the version. -/
def Demo.Check (cs : Demo.Constraints) (v : Version) : Bool :=
  cs.any (fun alt => alt.all (fun c => Demo.accepts c v))

/-- The reading of `semver` texts of this section. -/
def Demo.semver : Semver Demo.Constraints :=
  { NewVersion := Demo.NewVersion, NewConstraint := Demo.NewConstraint, Check := Demo.Check }

/-- A reading of JSON for the examples: the value of an `olm.package` property
is the version text itself, and a list of raw messages is joined by commas. -/
def Demo.json : MigrationJSON :=
  { UnmarshalPackage := fun value => .ok { PackageName := [], Version := value }
    MarshalList := fun l => l.foldl (fun acc x => acc ++ x ++ ascii ",") [] }

/-! ## Inputs of the examples for `fbc/v2` and the migration -/

/-- A release version `major.minor.patch`. -/
def Demo.v (major minor patch : Nat) : Version := semver.New major minor patch [] []

/-- A channel entry before `UnmarshalJSON` has filled it. -/
def Demo.entry0 : ChannelEntry Demo.Constraints := { Version := Version.zero, UpgradesFrom := [] }

/-- A bundle of package `foo` whose `olm.package` property gives `version`. -/
def Demo.declBundle (name version : Bytes) : DeclBundle :=
  { Name := name, Package := ascii "foo", Image := ascii "quay.io/foo/" ++ name,
    Properties := [{ Type_ := TypePackage, Value := version }], RelatedImages := [] }

/-- A catalog of three bundles of package `foo` and one channel whose head
`foo.v1.2.0` replaces `foo.v1.0.0` and skips `foo.v1.1.0`. -/
def Demo.cfg : DeclarativeConfig Demo.Constraints :=
  { Channels :=
      [{ Name := ascii "stable", Package := ascii "foo", Properties := [],
         Entries :=
           [{ Name := ascii "foo.v1.0.0", Replaces := [], Skips := [], SkipRange := [] },
            { Name := ascii "foo.v1.1.0", Replaces := ascii "foo.v1.0.0", Skips := [],
              SkipRange := [] },
            { Name := ascii "foo.v1.2.0", Replaces := ascii "foo.v1.0.0",
              Skips := [ascii "foo.v1.1.0"], SkipRange := [] }] }]
    Bundles :=
      [Demo.declBundle (ascii "foo.v1.0.0") (ascii "1.0.0"),
       Demo.declBundle (ascii "foo.v1.1.0") (ascii "1.1.0"),
       Demo.declBundle (ascii "foo.v1.2.0") (ascii "1.2.0")]
    ChannelsV2 := []
    BundlesV2 := [] }

/-- What the migrated channels accept: per channel and entry, the version of
the entry and whether its `UpgradesFrom` accepts each of the versions `vs`. -/
def Demo.accepted (o : Outcome (Option Err × DeclarativeConfig Demo.Constraints))
    (vs : List Version) : List (List (Version × List Bool)) :=
  match o with
  | .returns (none, cfg) =>
    cfg.ChannelsV2.map (fun ch =>
      ch.Entries.map (fun e => (e.Version, vs.map (fun v => Demo.Check e.UpgradesFrom v))))
  | _ => []

/-- The names of the migrated bundles of a run of the loop over the bundles. -/
def Demo.names (o : Outcome MigrationState) : List Bytes :=
  match o with
  | .returns st => st.BundlesV2.map (fun x => x.Name)
  | .panics _ => []

/-- The text `<Package>-<Version>` that the name of a migrated bundle starts with. -/
def BundleV2.packageVersion (x : BundleV2) : Bytes := x.Package ++ ascii "-" ++ x.Version.String

/-- Two bundles of package `foo` with distinct names and the same version. -/
def Demo.dupBundles : List DeclBundle :=
  [Demo.declBundle (ascii "foo.v1.0.0") (ascii "1.0.0"),
   Demo.declBundle (ascii "foo-alt.v1.0.0") (ascii "1.0.0")]

/-- A catalog of the two bundles of `Demo.dupBundles`, without channels. -/
def Demo.cfgDup : DeclarativeConfig Demo.Constraints :=
  { Channels := [], Bundles := Demo.dupBundles, ChannelsV2 := [], BundlesV2 := [] }

/-- The migrated bundles of a run of `v2` that returned nil: name, package,
version and release of each. -/
def Demo.migrated (o : Outcome (Option Err × DeclarativeConfig Demo.Constraints)) :
    Option (List (Bytes × Bytes × Version × Nat)) :=
  match o with
  | .returns (none, cfg) =>
    some (cfg.BundlesV2.map (fun x => (x.Name, x.Package, x.Version, x.Release)))
  | _ => none

/-! # Theorems -/

/-! ## `internal.RefCounter` -/

theorem NewAggregate_pair (a b : Option Err) :
    NewAggregate [a, b] =
      match a, b with
      | none, none => none
      | some x, none => some (Err.aggregate [x])
      | none, some y => some (Err.aggregate [y])
      | some x, some y => some (Err.aggregate [x, y]) := by
  cases a <;> cases b <;> rfl

theorem uint64_succ (c : Nat) (h : c + 1 < 2 ^ 64) : (c + 1) % 2 ^ 64 = c + 1 :=
  Nat.mod_eq_of_lt h

theorem uint64_pred (c : Nat) (h0 : 0 < c) (h : c < 2 ^ 64) :
    (c + 2 ^ 64 - 1) % 2 ^ 64 = c - 1 := by
  have h2 : c + 2 ^ 64 - 1 = (c - 1) + 2 ^ 64 := by omega
  rw [h2, Nat.add_mod_right]
  exact Nat.mod_eq_of_lt (by omega)

theorem Sys.step_inv {Item : Type} (s : Sys Item) (st : Step Item) (bound : Nat)
    (hb : bound + 1 < 2 ^ 64) (hst : st.closeNeverFails) (h : s.Inv bound) :
    (s.step st).Inv (bound + 1) := by
  obtain ⟨hc, hle, hi⟩ := h
  have hsucc := uint64_succ s.rc.count (by omega)
  cases st with
  | acquire Open =>
    cases hitem : s.rc.item with
    | none =>
      cases hO : Open () with
      | error e =>
        simp only [Sys.step, RefCounter.open, hitem, hO, Sys.Inv]
        refine ⟨hc, by omega, ?_⟩
        simpa [hitem] using hi
      | ok db =>
        simp only [Sys.step, RefCounter.open, hitem, hO, Sys.Inv, hsucc, Option.isSome_some,
          true_iff]
        exact ⟨by omega, by omega, by omega⟩
    | some it =>
      simp only [Sys.step, RefCounter.open, hitem, Sys.Inv, hsucc, Option.isSome_some, true_iff]
      exact ⟨by omega, by omega, by omega⟩
  | release Close =>
    have hnf : ∀ it, Close it = none := hst
    by_cases ha : s.active = 0
    · simp only [Sys.step, ha, if_true]
      exact ⟨hc, by omega, hi⟩
    · have hpred := uint64_pred s.rc.count (by omega) (by omega)
      by_cases h1 : s.rc.count = 1
      · simp only [Sys.step, ha, if_false, RefCounter.close, h1, if_true, hnf, Sys.Inv]
        have e1 : (1 + 2 ^ 64 - 1) % 2 ^ 64 = 0 := by norm_num
        rw [e1]
        refine ⟨by omega, by omega, ?_⟩
        simp only [Option.isSome_none, Bool.false_eq_true, false_iff]
        omega
      · simp only [Sys.step, ha, if_false, RefCounter.close, h1, Sys.Inv, hpred]
        refine ⟨by omega, by omega, ?_⟩
        rw [hi]
        omega

/-- As long as no `Close` call fails (and the run is too short to wrap the
`uint64` counter), every reachable state has the counter equal to the number
of active `With` calls and holds the item exactly when that number is
positive. -/
theorem Sys.run_inv {Item : Type} (steps : List (Step Item))
    (hlen : steps.length + 1 < 2 ^ 64) (hst : ∀ st ∈ steps, st.closeNeverFails) :
    ((Sys.init : Sys Item).run steps).rc.count = ((Sys.init : Sys Item).run steps).active ∧
      ((((Sys.init : Sys Item).run steps).rc.item.isSome = true) ↔
        0 < ((Sys.init : Sys Item).run steps).active) := by
  have key : ∀ (steps : List (Step Item)) (s : Sys Item) (b : Nat),
      b + steps.length + 1 < 2 ^ 64 → (∀ st ∈ steps, st.closeNeverFails) → s.Inv b →
      (s.run steps).Inv (b + steps.length) := by
    intro steps
    induction steps with
    | nil => intro s b _ _ h; simpa [Sys.run] using h
    | cons st rest ih =>
      intro s b hb hall h
      have h1 := Sys.step_inv s st b (by simp at hb; omega) (hall st (by simp)) h
      have h2 := ih (s.step st) (b + 1) (by simp at hb ⊢; omega)
        (fun x hx => hall x (by simp [hx])) h1
      simp only [Sys.run, List.foldl_cons, List.length_cons] at h2 ⊢
      have e : b + 1 + rest.length = b + (rest.length + 1) := by omega
      rw [e] at h2
      exact h2
  have h := key steps Sys.init 0 (by omega) hst ⟨rfl, le_refl _, by simp [Sys.init]⟩
  exact ⟨h.1, h.2.2⟩

/-- C1 (the code at the failing input): one `With` call whose `Close` returns an
error leaves the counter at 1 and the item held although no caller is active;
a later `With` call then invokes neither `Open` nor `Close`, so the open
period is never closed. -/
theorem RefCounter_close_error_leaks :
    let fail : Step Unit := .release (fun _ => some (Err.lib "close failed"))
    let good : Step Unit := .release (fun _ => none)
    let acq : Step Unit := .acquire (fun _ => .ok ())
    let s1 := (Sys.init : Sys Unit).run [acq, fail]
    let s2 := (Sys.init : Sys Unit).run [acq, fail, acq, good]
    (s1.rc.count = 1 ∧ s1.active = 0 ∧ s1.rc.item = some () ∧ s1.calls = [Call.Open, Call.Close]) ∧
    (s2.rc.count = 1 ∧ s2.active = 0 ∧ s2.rc.item = some () ∧ s2.calls = [Call.Open, Call.Close]) := by
  decide

theorem close_result {Item : Type} (rc : RefCounter Item) (Close : Option Item → Option Err) :
    (rc.close Close).1 = (if rc.count = 1 then Close rc.item else none) ∧
    (Call.Close ∈ (rc.close Close).2.2 ↔ rc.count = 1) := by
  unfold RefCounter.close
  by_cases h : rc.count = 1
  · simp only [h, if_true]
    cases Close rc.item <;> simp
  · simp [h]

/-- C2: when the acquire half succeeds, the release half calls `Close` exactly
when the counter it finds is 1 and returns the error of that call; `With`
returns nil exactly when the body and the release half both returned nil, and
otherwise returns the aggregate of the non-nil errors of the body and of
`Close`, in that order, so that it contains each of them. -/
theorem With_aggregates_errors {Item σ : Type} (rc : RefCounter Item)
    (Open : Unit → Except Err Item) (Close : Option Item → Option Err)
    (others : RefCounter Item → RefCounter Item) (f : Item → σ → Option Err × σ) (s : σ)
    (item : Item) (rc1 : RefCounter Item) (t1 : List Call)
    (hopen : rc.open Open = (.ok item, rc1, t1)) :
    ((rc.With Open Close others f s).err = none ↔
      (f item s).1 = none ∧ ((others rc1).close Close).1 = none) ∧
    (∀ e, (f item s).1 = some e ∨ ((others rc1).close Close).1 = some e →
      ∃ es, (rc.With Open Close others f s).err = some (Err.aggregate es) ∧ e ∈ es) ∧
    (((others rc1).close Close).1 =
      if (others rc1).count = 1 then Close (others rc1).item else none) ∧
    (Call.Close ∈ (rc.With Open Close others f s).calls ↔
      Call.Close ∈ t1 ∨ (others rc1).count = 1) ∧
    (∀ e, (others rc1).count = 1 → Close (others rc1).item = some e →
      ∃ es, (rc.With Open Close others f s).err = some (Err.aggregate es) ∧ e ∈ es) ∧
    ((rc.With Open Close others f s).err =
      match (f item s).1, (if (others rc1).count = 1 then Close (others rc1).item else none) with
      | none, none => none
      | some x, none => some (Err.aggregate [x])
      | none, some y => some (Err.aggregate [y])
      | some x, some y => some (Err.aggregate [x, y])) := by
  obtain ⟨hres, hcall⟩ := close_result (others rc1) Close
  have hw : (rc.With Open Close others f s).err
      = NewAggregate [(f item s).1, ((others rc1).close Close).1] := by
    unfold RefCounter.With
    rw [hopen]
  have hcalls : (rc.With Open Close others f s).calls
      = t1 ++ [Call.f] ++ ((others rc1).close Close).2.2 := by
    unfold RefCounter.With
    rw [hopen]
  have hexact : (rc.With Open Close others f s).err =
      match (f item s).1, (if (others rc1).count = 1 then Close (others rc1).item else none) with
      | none, none => none
      | some x, none => some (Err.aggregate [x])
      | none, some y => some (Err.aggregate [y])
      | some x, some y => some (Err.aggregate [x, y]) := by
    rw [hw, NewAggregate_pair, hres]
  refine ⟨?_, ?_, hres, ?_, ?_, hexact⟩
  · rw [hw, NewAggregate_pair]
    cases hf : (f item s).1 <;> cases hc : ((others rc1).close Close).1 <;> simp
  · rw [hw, NewAggregate_pair]
    cases hf : (f item s).1 <;> cases hc : ((others rc1).close Close).1 <;> simp [eq_comm]
  · rw [hcalls]
    simp only [List.mem_append, List.mem_singleton, hcall]
    constructor
    · rintro ((h | h) | h)
      · exact Or.inl h
      · cases h
      · exact Or.inr h
    · rintro (h | h)
      · exact Or.inl (Or.inl h)
      · exact Or.inr h
  · intro e h1 hce
    rw [hexact]
    simp only [h1, if_true, hce]
    cases (f item s).1 <;> simp

theorem With_aggregates_errors_witness :
    (⟨none, 0⟩ : RefCounter Unit).open (fun _ => .ok ()) = (.ok (), ⟨some (), 1⟩, [Call.Open]) ∧
    ((⟨none, 0⟩ : RefCounter Unit).With (fun _ => .ok ()) (fun _ => some (Err.lib "close"))
        id (fun _ (n : Nat) => (some (Err.lib "body"), n + 1)) 0).err =
      some (Err.aggregate [Err.lib "body", Err.lib "close"]) ∧
    ((id (⟨some (), 1⟩ : RefCounter Unit)).close (fun _ => some (Err.lib "close"))).1 =
      some (Err.lib "close") ∧
    (Call.Close ∈ ((⟨none, 0⟩ : RefCounter Unit).With (fun _ => .ok ())
        (fun _ => some (Err.lib "close")) id
        (fun _ (n : Nat) => (some (Err.lib "body"), n + 1)) 0).calls ↔
      Call.Close ∈ [Call.Open] ∨ (id (⟨some (), 1⟩ : RefCounter Unit)).count = 1) ∧
    (((⟨none, 0⟩ : RefCounter Unit).With (fun _ => .ok ()) (fun _ => some (Err.lib "close"))
        id (fun _ (n : Nat) => (some (Err.lib "body"), n + 1)) 0).err = none ↔
      (some (Err.lib "body") : Option Err) = none ∧
        ((id (⟨some (), 1⟩ : RefCounter Unit)).close (fun _ => some (Err.lib "close"))).1 = none) :=
  have h := With_aggregates_errors (⟨none, 0⟩ : RefCounter Unit) (fun _ => .ok ())
    (fun _ => some (Err.lib "close")) id (fun _ (n : Nat) => (some (Err.lib "body"), n + 1)) 0
    () ⟨some (), 1⟩ [Call.Open] rfl
  ⟨rfl, h.2.2.2.2.2, h.2.2.1, h.2.2.2.1, h.1⟩

/-- C3: with no item held, an `Open` that fails makes `With` return exactly
that error; the only call made is the one to `Open` (neither the body nor
`Close` runs), and the counter state and the state of the body are unchanged. -/
theorem With_open_error {Item σ : Type} (rc : RefCounter Item)
    (Open : Unit → Except Err Item) (Close : Option Item → Option Err)
    (others : RefCounter Item → RefCounter Item) (f : Item → σ → Option Err × σ) (s : σ)
    (e : Err) (hitem : rc.item = none) (hopen : Open () = .error e) :
    (rc.With Open Close others f s).err = some e ∧
    (rc.With Open Close others f s).calls = [Call.Open] ∧
    Call.f ∉ (rc.With Open Close others f s).calls ∧
    Call.Close ∉ (rc.With Open Close others f s).calls ∧
    (rc.With Open Close others f s).rc = rc ∧
    (rc.With Open Close others f s).user = s := by
  have hw : rc.With Open Close others f s
      = { err := some e, rc := rc, user := s, calls := [Call.Open] } := by
    unfold RefCounter.With RefCounter.open
    rw [hitem]
    simp only [hopen]
  rw [hw]
  simp

theorem With_open_error_witness :
    ((⟨none, 3⟩ : RefCounter Unit).With (fun _ => .error (Err.lib "open")) (fun _ => none) id
        (fun _ (n : Nat) => (none, n + 1)) 0).err = some (Err.lib "open") ∧
    ((⟨none, 3⟩ : RefCounter Unit).With (fun _ => .error (Err.lib "open")) (fun _ => none) id
        (fun _ (n : Nat) => (none, n + 1)) 0).calls = [Call.Open] ∧
    Call.f ∉ ((⟨none, 3⟩ : RefCounter Unit).With (fun _ => .error (Err.lib "open"))
        (fun _ => none) id (fun _ (n : Nat) => (none, n + 1)) 0).calls ∧
    Call.Close ∉ ((⟨none, 3⟩ : RefCounter Unit).With (fun _ => .error (Err.lib "open"))
        (fun _ => none) id (fun _ (n : Nat) => (none, n + 1)) 0).calls ∧
    ((⟨none, 3⟩ : RefCounter Unit).With (fun _ => .error (Err.lib "open")) (fun _ => none) id
        (fun _ (n : Nat) => (none, n + 1)) 0).rc = ⟨none, 3⟩ ∧
    ((⟨none, 3⟩ : RefCounter Unit).With (fun _ => .error (Err.lib "open")) (fun _ => none) id
        (fun _ (n : Nat) => (none, n + 1)) 0).user = 0 :=
  With_open_error (⟨none, 3⟩ : RefCounter Unit) (fun _ => .error (Err.lib "open"))
    (fun _ => none) id (fun _ (n : Nat) => (none, n + 1)) 0 (Err.lib "open") rfl rfl

/-! ## `Bolt.SendBundles` and `Bolt.GetBundle` -/

theorem With_fresh {Item σ : Type} (Open : Unit → Except Err Item)
    (Close : Option Item → Option Err) (f : Item → σ → Option Err × σ) (s : σ) (it : Item)
    (hopen : Open () = .ok it) (hclose : Close (some it) = none) :
    (⟨none, 0⟩ : RefCounter Item).With Open Close id f s =
      { err := NewAggregate [(f it s).1, none], rc := ⟨none, 0⟩, user := (f it s).2,
        calls := [Call.Open, Call.f, Call.Close] } := by
  have e1 : (0 + 1) % 2 ^ 64 = 1 := by norm_num
  have e2 : (1 + 2 ^ 64 - 1) % 2 ^ 64 = 0 := by norm_num
  simp only [RefCounter.With, RefCounter.open, RefCounter.close, hopen, hclose, id, e1, e2,
    if_true, List.cons_append, List.nil_append]

/-- `ForEach` stops at the first pair on which `fn` fails: the pairs behind it
are not visited, whatever they are. -/
theorem Bucket.ForEach_abort {σ : Type} (fn : Bytes → Bytes → σ → Option Err × σ)
    (front back : Bucket) (k v : Bytes) (s s1 s2 : σ) (e : Err)
    (hfront : Bucket.ForEach fn front s = (none, s1)) (hfail : fn k v s1 = (some e, s2)) :
    Bucket.ForEach fn (front ++ (k, v) :: back) s = (some e, s2) := by
  induction front generalizing s with
  | nil =>
    simp only [Bucket.ForEach, Prod.mk.injEq, true_and] at hfront
    subst hfront
    simp only [List.nil_append, Bucket.ForEach, hfail]
  | cons kv rest ih =>
    obtain ⟨k0, v0⟩ := kv
    simp only [List.cons_append, Bucket.ForEach] at hfront ⊢
    rcases hstep : fn k0 v0 s with ⟨r, s0⟩
    cases r with
    | some err => simp [hstep] at hfront
    | none =>
      simp only [hstep] at hfront ⊢
      exact ih s0 hfront

/-- With a store that opens, `SendBundles` on a cache that no caller holds
returns nil whatever `ForEach` returned. -/
theorem SendBundles_returns_nil {FS σ : Type} (c : Collab FS) (q : Bolt)
    (Send : ApiBundle → σ → Option Err × σ) (s : σ) (db : DB)
    (hdb : q.baseDir.db = some db) (hrc : q.db = ⟨none, 0⟩) :
    (q.SendBundles c Send s).1 = none := by
  have hopen : q.openDBReadOnly () = .ok db := by simp [Bolt.openDBReadOnly, hdb]
  unfold Bolt.SendBundles
  rw [hrc, With_fresh _ _ _ _ db hopen rfl]
  simp [DB.View, NewAggregate]

/-- C4 (the code at the failing input): on a store whose only record does not
decode, and on a store whose record decodes but whose sender fails,
`SendBundles` returns nil. -/
theorem SendBundles_drops_errors :
    (Demo.collab [] []).Unmarshal [7, 7] = .error (Err.lib "malformed input") ∧
    (Demo.corrupt.SendBundles (Demo.collab [] []) SliceBundleSender.Send []).1 = none ∧
    (Demo.collab [Demo.record] []).Unmarshal [0] = .ok Demo.record ∧
    (Demo.bolt.SendBundles (Demo.collab [Demo.record] [])
      (fun _ (s : List ApiBundle) => (some (Err.lib "send failed"), s)) []).1 = none :=
  ⟨rfl, rfl, rfl, rfl⟩

theorem loadAPIBundle_found {FS : Type} (c : Collab FS) (q : Bolt)
    (pkgName chName bundleName val : Bytes) (db : DB) (r : ApiBundle)
    (hrc : q.db = ⟨none, 0⟩) (hdb : q.baseDir.db = some db)
    (hget : db.bundles.Get (bundleKey pkgName chName bundleName) = some val)
    (hdec : c.Unmarshal val = .ok r) :
    q.loadAPIBundle c pkgName chName bundleName = (.ok r, q, [Call.Open, Call.f, Call.Close]) := by
  have hopen : q.openDBReadOnly () = .ok db := by simp [Bolt.openDBReadOnly, hdb]
  have hq : ({ q with db := ⟨none, 0⟩ } : Bolt) = q := by
    cases q
    simp only [Bolt.mk.injEq, true_and] at hrc ⊢
    exact hrc.symm
  unfold Bolt.loadAPIBundle
  rw [hrc, With_fresh _ _ _ _ db hopen rfl]
  simp only [DB.View, hget, hdec, NewAggregate_pair, hq]

theorem GetBundle_found {FS : Type} (c : Collab FS) (q : Bolt)
    (pkgName channelName csvName val : Bytes) (pkg : cPkg) (ch : cChannel) (b : cBundle)
    (db : DB) (r : ApiBundle)
    (hp : q.packageIndex.get pkgName = some pkg) (hc : pkg.Channels.get channelName = some ch)
    (hb : ch.Bundles.get csvName = some b)
    (hrc : q.db = ⟨none, 0⟩) (hdb : q.baseDir.db = some db)
    (hget : db.bundles.Get (bundleKey pkg.Name ch.Name b.Name) = some val)
    (hdec : c.Unmarshal val = .ok r) :
    q.GetBundle c pkgName channelName csvName =
      (.ok { r with Replaces := [], Skips := [] }, q, [Call.Open, Call.f, Call.Close]) := by
  unfold Bolt.GetBundle
  simp only [hp, hc, hb, loadAPIBundle_found c q _ _ _ val db r hrc hdb hget hdec]

/-- C5: when the package, the channel or the bundle is absent from the index,
`GetBundle` returns no record but the error that names what is missing (the
package; the package and the channel; the package, the channel and the
bundle), leaves the cache as it was and makes no call to `Open`, to a body
that reads the store, or to `Close`. -/
theorem GetBundle_not_found {FS : Type} (c : Collab FS) (q : Bolt)
    (pkgName channelName csvName : Bytes) :
    (q.packageIndex.get pkgName = none →
      q.GetBundle c pkgName channelName csvName =
        (.error (Err.errorf "package %q not found" [pkgName]), q, [])) ∧
    (∀ pkg, q.packageIndex.get pkgName = some pkg → pkg.Channels.get channelName = none →
      q.GetBundle c pkgName channelName csvName =
        (.error (Err.errorf "package %q, channel %q not found" [pkgName, channelName]), q, [])) ∧
    (∀ pkg ch, q.packageIndex.get pkgName = some pkg → pkg.Channels.get channelName = some ch →
      ch.Bundles.get csvName = none →
      q.GetBundle c pkgName channelName csvName =
        (.error (Err.errorf "package %q, channel %q, bundle %q not found"
          [pkgName, channelName, csvName]), q, [])) := by
  refine ⟨?_, ?_, ?_⟩
  · intro hp
    simp only [Bolt.GetBundle, hp]
  · intro pkg hp hc
    simp only [Bolt.GetBundle, hp, hc]
  · intro pkg ch hp hc hb
    simp only [Bolt.GetBundle, hp, hc, hb]

theorem GetBundle_not_found_witness :
    (Demo.bolt.packageIndex.get (ascii "x") = none ∧
      Demo.bolt.GetBundle (Demo.collab [] []) (ascii "x") (ascii "c") (ascii "b") =
        (.error (Err.errorf "package %q not found" [ascii "x"]), Demo.bolt, [])) ∧
    (Demo.bolt.packageIndex.get (ascii "p") = some Demo.idxPkg ∧
      Demo.idxPkg.Channels.get (ascii "x") = none ∧
      Demo.bolt.GetBundle (Demo.collab [] []) (ascii "p") (ascii "x") (ascii "b") =
        (.error (Err.errorf "package %q, channel %q not found" [ascii "p", ascii "x"]),
          Demo.bolt, [])) ∧
    (Demo.bolt.packageIndex.get (ascii "p") = some Demo.idxPkg ∧
      Demo.idxPkg.Channels.get (ascii "c") = some Demo.idxChannel ∧
      Demo.idxChannel.Bundles.get (ascii "x") = none ∧
      Demo.bolt.GetBundle (Demo.collab [] []) (ascii "p") (ascii "c") (ascii "x") =
        (.error (Err.errorf "package %q, channel %q, bundle %q not found"
          [ascii "p", ascii "c", ascii "x"]), Demo.bolt, [])) :=
  ⟨⟨by decide, (GetBundle_not_found (Demo.collab [] []) Demo.bolt (ascii "x") (ascii "c")
      (ascii "b")).1 (by decide)⟩,
   ⟨by decide, by decide, (GetBundle_not_found (Demo.collab [] []) Demo.bolt (ascii "p")
      (ascii "x") (ascii "b")).2.1 Demo.idxPkg (by decide) (by decide)⟩,
   ⟨by decide, by decide, by decide, (GetBundle_not_found (Demo.collab [] []) Demo.bolt
      (ascii "p") (ascii "c") (ascii "x")).2.2 Demo.idxPkg Demo.idxChannel (by decide)
      (by decide) (by decide)⟩⟩

/-- C6 (as stated, refuted): the stored record of `p/c/b` has a non-empty
`BundlePath`, and `GetBundle` returns it with `CsvJson` and `Object` as they
were stored, not empty. -/
theorem GetBundle_keeps_embedded_content :
    Demo.record.BundlePath ≠ [] ∧
    (Demo.bolt.GetBundle (Demo.collab [Demo.record] []) (ascii "p") (ascii "c") (ascii "b")).1 =
      .ok { Demo.record with Replaces := [], Skips := [] } ∧
    ({ Demo.record with Replaces := [], Skips := [] } : ApiBundle).CsvJson ≠ [] ∧
    ({ Demo.record with Replaces := [], Skips := [] } : ApiBundle).Object ≠ [] :=
  ⟨by decide, rfl, by decide, by decide⟩

/-- C6 (amended): for a stored record whose `BundlePath` is not empty, the
record that `SendBundles` hands to the sender has `CsvJson` and `Object`
empty, while `GetBundle` returns the record with `CsvJson` and `Object` as
decoded and only `Replaces` and `Skips` cleared. -/
theorem embedded_content_cleared_by_SendBundles_only {FS σ : Type} (c : Collab FS)
    (Send : ApiBundle → σ → Option Err × σ) (s : σ) (k val : Bytes) (r : ApiBundle)
    (hdec : c.Unmarshal val = .ok r) (hpath : r.BundlePath ≠ []) :
    Bolt.SendBundles.each c Send k val s = Send { r with CsvJson := [], Object := [] } s ∧
    ∀ (q : Bolt) (pkgName channelName csvName : Bytes) (pkg : cPkg) (ch : cChannel)
      (b : cBundle) (db : DB),
      q.packageIndex.get pkgName = some pkg → pkg.Channels.get channelName = some ch →
      ch.Bundles.get csvName = some b → q.db = ⟨none, 0⟩ → q.baseDir.db = some db →
      db.bundles.Get (bundleKey pkg.Name ch.Name b.Name) = some val →
      ∃ r1, (q.GetBundle c pkgName channelName csvName).1 = .ok r1 ∧
        r1.CsvJson = r.CsvJson ∧ r1.Object = r.Object ∧ r1.BundlePath = r.BundlePath := by
  constructor
  · unfold Bolt.SendBundles.each
    simp only [hdec, hpath, ne_eq, not_false_eq_true, if_true]
    rcases hS : Send { r with CsvJson := [], Object := [] } s with ⟨e, s1⟩
    cases e <;> rfl
  · intro q pkgName channelName csvName pkg ch b db hp hc hb hrc hdb hget
    refine ⟨{ r with Replaces := [], Skips := [] }, ?_, rfl, rfl, rfl⟩
    rw [GetBundle_found c q pkgName channelName csvName val pkg ch b db r hp hc hb hrc hdb hget
      hdec]

theorem embedded_content_cleared_by_SendBundles_only_witness :
    (Demo.collab [Demo.record] []).Unmarshal [0] = .ok Demo.record ∧
    Demo.record.BundlePath ≠ [] ∧
    Bolt.SendBundles.each (Demo.collab [Demo.record] []) SliceBundleSender.Send
        (bundleKey (ascii "p") (ascii "c") (ascii "b")) [0] [] =
      SliceBundleSender.Send { Demo.record with CsvJson := [], Object := [] } [] ∧
    ∃ r1, (Demo.bolt.GetBundle (Demo.collab [Demo.record] []) (ascii "p") (ascii "c")
        (ascii "b")).1 = .ok r1 ∧
      r1.CsvJson = Demo.record.CsvJson ∧ r1.Object = Demo.record.Object ∧
      r1.BundlePath = Demo.record.BundlePath :=
  ⟨rfl, by decide,
    (embedded_content_cleared_by_SendBundles_only (Demo.collab [Demo.record] [])
      SliceBundleSender.Send [] (bundleKey (ascii "p") (ascii "c") (ascii "b")) [0] Demo.record
      rfl (by decide)).1,
    (embedded_content_cleared_by_SendBundles_only (Demo.collab [Demo.record] [])
      SliceBundleSender.Send [] (bundleKey (ascii "p") (ascii "c") (ascii "b")) [0] Demo.record
      rfl (by decide)).2 Demo.bolt (ascii "p") (ascii "c") (ascii "b") Demo.idxPkg
      Demo.idxChannel Demo.idxBundle _ rfl rfl rfl rfl rfl rfl⟩

/-! ## Keys of the bundle partition -/

theorem append_sep_inj (sep : Byte) (a a1 x x1 : Bytes) (h : sep ∉ a) (h1 : sep ∉ a1)
    (e : a ++ sep :: x = a1 ++ sep :: x1) : a = a1 ∧ x = x1 := by
  induction a generalizing a1 with
  | nil =>
    cases a1 with
    | nil => simpa using e
    | cons y ys =>
      simp only [List.nil_append, List.cons_append, List.cons.injEq] at e
      exact absurd (e.1 ▸ List.mem_cons_self _ _) h1
  | cons z zs ih =>
    cases a1 with
    | nil =>
      simp only [List.nil_append, List.cons_append, List.cons.injEq] at e
      exact absurd (e.1 ▸ List.mem_cons_self _ _) h
    | cons y ys =>
      simp only [List.cons_append, List.cons.injEq] at e
      have := ih ys (fun hm => h (List.mem_cons_of_mem _ hm))
        (fun hm => h1 (List.mem_cons_of_mem _ hm)) e.2
      exact ⟨by rw [e.1, this.1], this.2⟩

theorem bundleKey_eq (p c b : Bytes) :
    bundleKey p c b = p ++ (47 : Byte) :: (c ++ (47 : Byte) :: (b ++ ascii ".proto")) := by
  have h : ascii "/" = [(47 : Byte)] := by decide
  simp [bundleKey, h]

/-- C8 (as stated, refuted): two distinct triples with the same key. -/
theorem bundleKey_collision :
    (ascii "a/b", ascii "c", ascii "d") ≠ (ascii "a", ascii "b/c", ascii "d") ∧
    bundleKey (ascii "a/b") (ascii "c") (ascii "d") =
      bundleKey (ascii "a") (ascii "b/c") (ascii "d") := by
  decide

/-- C8 (amended): among triples whose package and channel names contain no
`/`, distinct triples have distinct keys. -/
theorem bundleKey_injective (p c b p1 c1 b1 : Bytes)
    (hp : (47 : Byte) ∉ p) (hc : (47 : Byte) ∉ c) (hp1 : (47 : Byte) ∉ p1)
    (hc1 : (47 : Byte) ∉ c1) (hne : (p, c, b) ≠ (p1, c1, b1)) :
    bundleKey p c b ≠ bundleKey p1 c1 b1 := by
  intro e
  rw [bundleKey_eq, bundleKey_eq] at e
  obtain ⟨e1, e2⟩ := append_sep_inj 47 p p1 _ _ hp hp1 e
  obtain ⟨e3, e4⟩ := append_sep_inj 47 c c1 _ _ hc hc1 e2
  have e5 : b = b1 := List.append_cancel_right e4
  exact hne (by rw [e1, e3, e5])

theorem bundleKey_injective_witness :
    (47 : Byte) ∉ ascii "p" ∧ (47 : Byte) ∉ ascii "c" ∧ (47 : Byte) ∉ ascii "p" ∧
    (47 : Byte) ∉ ascii "d" ∧ (ascii "p", ascii "c", ascii "b") ≠ (ascii "p", ascii "d", ascii "b") ∧
    bundleKey (ascii "p") (ascii "c") (ascii "b") ≠ bundleKey (ascii "p") (ascii "d") (ascii "b") :=
  ⟨by decide, by decide, by decide, by decide, by decide,
    bundleKey_injective (ascii "p") (ascii "c") (ascii "b") (ascii "p") (ascii "d") (ascii "b")
      (by decide) (by decide) (by decide) (by decide) (by decide)⟩

/-! ## The digest -/

theorem fnv_coprime : Nat.gcd (2 ^ 64) prime64 = 1 := by
  unfold prime64; norm_num

theorem fnv_mul_inj (x y : Nat) (hx : x < 2 ^ 64) (hy : y < 2 ^ 64)
    (e : x * prime64 % 2 ^ 64 = y * prime64 % 2 ^ 64) : x = y := by
  have h : x ≡ y [MOD 2 ^ 64] := Nat.ModEq.cancel_right_of_coprime fnv_coprime e
  have h1 : x % 2 ^ 64 = y % 2 ^ 64 := h
  rwa [Nat.mod_eq_of_lt hx, Nat.mod_eq_of_lt hy] at h1

theorem byte_lt (c : Byte) : c.val < 2 ^ 64 := lt_trans c.isLt (by norm_num)

theorem fnv_step_inj_byte (h : Nat) (hh : h < 2 ^ 64) (b b1 : Byte)
    (e : (h ^^^ b.val) * prime64 % 2 ^ 64 = (h ^^^ b1.val) * prime64 % 2 ^ 64) : b = b1 := by
  have := fnv_mul_inj _ _ (Nat.xor_lt_two_pow hh (byte_lt b)) (Nat.xor_lt_two_pow hh (byte_lt b1)) e
  exact Fin.ext (Nat.xor_right_injective this)

theorem fnv_step_inj_state (h h1 : Nat) (hh : h < 2 ^ 64) (hh1 : h1 < 2 ^ 64) (b : Byte)
    (e : (h ^^^ b.val) * prime64 % 2 ^ 64 = (h1 ^^^ b.val) * prime64 % 2 ^ 64) : h = h1 := by
  have := fnv_mul_inj _ _ (Nat.xor_lt_two_pow hh (byte_lt b)) (Nat.xor_lt_two_pow hh1 (byte_lt b)) e
  exact Nat.xor_left_injective this

theorem Write_lt (h : Nat) (hh : h < 2 ^ 64) (data : Bytes) : sum64a.Write h data < 2 ^ 64 := by
  induction data generalizing h with
  | nil => simpa [sum64a.Write] using hh
  | cons c rest ih =>
    simp only [sum64a.Write, List.foldl_cons]
    exact ih _ (Nat.mod_lt _ (by norm_num))

theorem Write_append (h : Nat) (a b : Bytes) :
    sum64a.Write h (a ++ b) = sum64a.Write (sum64a.Write h a) b := by
  simp [sum64a.Write, List.foldl_append]

theorem Write_inj_state (data : Bytes) (h h1 : Nat) (hh : h < 2 ^ 64) (hh1 : h1 < 2 ^ 64)
    (e : sum64a.Write h data = sum64a.Write h1 data) : h = h1 := by
  induction data generalizing h h1 with
  | nil => simpa [sum64a.Write] using e
  | cons c rest ih =>
    simp only [sum64a.Write, List.foldl_cons] at e
    have := ih _ _ (Nat.mod_lt _ (by norm_num)) (Nat.mod_lt _ (by norm_num)) e
    exact fnv_step_inj_state h h1 hh hh1 c this

theorem Write_single_byte (h : Nat) (hh : h < 2 ^ 64) (front back : Bytes) (b b1 : Byte)
    (hne : b ≠ b1) :
    sum64a.Write h (front ++ b :: back) ≠ sum64a.Write h (front ++ b1 :: back) := by
  intro e
  rw [Write_append, Write_append] at e
  have hg := Write_lt h hh front
  simp only [sum64a.Write, List.foldl_cons] at e
  have := Write_inj_state back _ _ (Nat.mod_lt _ (by norm_num)) (Nat.mod_lt _ (by norm_num)) e
  exact hne (fnv_step_inj_byte _ hg b b1 this)

theorem hexDigit_inj : ∀ a < 16, ∀ b < 16, hexDigit a = hexDigit b → a = b := by decide

theorem hexByte_inj (x y : Byte) (e1 : hexDigit (x.val / 16) = hexDigit (y.val / 16))
    (e2 : hexDigit (x.val % 16) = hexDigit (y.val % 16)) : x = y := by
  have hx := x.isLt
  have hy := y.isLt
  have a := hexDigit_inj _ (by omega) _ (by omega) e1
  have b := hexDigit_inj _ (Nat.mod_lt _ (by norm_num)) _ (Nat.mod_lt _ (by norm_num)) e2
  exact Fin.ext (by omega)

theorem byteAt_val (h k : Nat) : (byteAt h k).val = h / 2 ^ k % 256 := by
  simp [byteAt, Fin.ofNat, Nat.shiftRight_eq_div_pow]

theorem Sum_inj (h h1 : Nat) (hh : h < 2 ^ 64) (hh1 : h1 < 2 ^ 64)
    (e : Sprintf_x (sum64a.Sum h) = Sprintf_x (sum64a.Sum h1)) : h = h1 := by
  simp only [sum64a.Sum, Sprintf_x, List.cons.injEq, and_true] at e
  obtain ⟨a1, a2, b1, b2, c1, c2, d1, d2, e1, e2, f1, f2, g1, g2, i1, i2⟩ := e
  have A := congrArg Fin.val (hexByte_inj _ _ a1 a2)
  have B := congrArg Fin.val (hexByte_inj _ _ b1 b2)
  have C := congrArg Fin.val (hexByte_inj _ _ c1 c2)
  have D := congrArg Fin.val (hexByte_inj _ _ d1 d2)
  have E := congrArg Fin.val (hexByte_inj _ _ e1 e2)
  have F := congrArg Fin.val (hexByte_inj _ _ f1 f2)
  have G := congrArg Fin.val (hexByte_inj _ _ g1 g2)
  have I := congrArg Fin.val (hexByte_inj _ _ i1 i2)
  simp only [byteAt_val] at A B C D E F G I
  norm_num at A B C D E F G I hh hh1
  omega

theorem New64a_lt : New64a < 2 ^ 64 := by
  unfold New64a offset64; norm_num

theorem hexDigit_plain : ∀ n < 16, asciiSpace (hexDigit n) = false ∧ (hexDigit n).val < 128 := by
  decide

theorem TrimSpace_plain {FS : Type} (c : Collab FS) (a z : Byte) (rest t : Bytes)
    (hrev : (a :: rest).reverse = z :: t)
    (ha : asciiSpace a = false ∧ a.val < 128) (hz : asciiSpace z = false ∧ z.val < 128) :
    TrimSpace c (a :: rest) = a :: rest := by
  have hlast : (a :: rest).getLast? = some z := by
    have : a :: rest = (z :: t).reverse := by rw [← hrev, List.reverse_reverse]
    rw [this]
    simp
  have ha2 : ¬ a.val ≥ 128 := by omega
  have hz2 : ¬ z.val ≥ 128 := by omega
  have hd : List.dropWhile asciiSpace (a :: rest) = a :: rest := by
    simp [List.dropWhile, ha.1]
  have hd2 : List.dropWhile asciiSpace (z :: t) = z :: t := by
    simp [List.dropWhile, hz.1]
  unfold TrimSpace
  simp only [hd, ha2, if_false, hrev, hd2]
  rw [← hrev, List.reverse_reverse, hlast]
  simp only [hz2, if_false]

theorem TrimSpace_digest {FS : Type} (c : Collab FS) (h : Nat) :
    TrimSpace c (Sprintf_x (sum64a.Sum h)) = Sprintf_x (sum64a.Sum h) := by
  have hb : ∀ x : Byte, x.val / 16 < 16 := fun x => by have := x.isLt; omega
  have hm : ∀ x : Byte, x.val % 16 < 16 := fun x => Nat.mod_lt _ (by norm_num)
  simp only [sum64a.Sum, Sprintf_x]
  exact TrimSpace_plain c _ (hexDigit ((byteAt h 0).val % 16)) _ _ rfl
    (hexDigit_plain _ (hb _)) (hexDigit_plain _ (hm _))

theorem ForEach_digest (b : Bucket) (h : Nat) :
    Bucket.ForEach Bolt.computeDigest.each b h = (none, sum64a.Write h b.stream) := by
  induction b generalizing h with
  | nil => simp [Bucket.ForEach, Bucket.stream, sum64a.Write]
  | cons kv rest ih =>
    obtain ⟨k, v⟩ := kv
    simp only [Bucket.ForEach, Bolt.computeDigest.each, Bucket.stream, ih, Write_append]

theorem computeDigest_eq {FS : Type} (c : Collab FS) (q : Bolt) (fs : FS) (tar : Bytes) (db : DB)
    (htar : c.fsToTar fs = .ok tar) (hdb : q.baseDir.db = some db) :
    q.computeDigest c fs = .ok (digestOf tar db) := by
  simp only [Bolt.computeDigest, htar, Bolt.openDBReadOnly, hdb, DB.View, ForEach_digest,
    digestOf, digestInput, Write_append]

/-- What a successful `Build` did: the collaborators succeeded, the directory
held no store, and the new directory holds the store that the loop over the
model wrote together with the digest of that store and of the source. -/
theorem Build_ok {FS : Type} (c : Collab FS) (q : Bolt) (fs : FS) (h : (q.Build c fs).1 = none) :
    ∃ dir1 model pkgs ib bb tar,
      c.ensureEmptyDir q.baseDir = (none, dir1) ∧ c.LoadModel fs = .ok model ∧
      packagesFromModel c model [] = .ok pkgs ∧ dir1.db = none ∧
      Bolt.Build.packages c pkgs model [] [] = .ok (ib, bb) ∧ c.fsToTar fs = .ok tar ∧
      q.Build c fs =
        (none, { q with baseDir :=
          { db := some { packageIndices := ib, bundles := bb },
            digest := some (digestOf tar { packageIndices := ib, bundles := bb }) } }) := by
  rcases he : c.ensureEmptyDir q.baseDir with ⟨e, dir1⟩
  cases e with
  | some err => simp [Bolt.Build, he] at h
  | none =>
    cases hl : c.LoadModel fs with
    | error err => simp [Bolt.Build, he, hl] at h
    | ok model =>
      cases hp : packagesFromModel c model [] with
      | error err => simp [Bolt.Build, he, hl, hp] at h
      | ok pkgs =>
        cases hd : dir1.db with
        | some d => simp [Bolt.Build, he, hl, hp, hd] at h
        | none =>
          cases hb : Bolt.Build.packages c pkgs model [] [] with
          | error err => simp [Bolt.Build, he, hl, hp, hd, hb] at h
          | ok r =>
            obtain ⟨ib, bb⟩ := r
            cases ht : c.fsToTar fs with
            | error err => simp [Bolt.Build, he, hl, hp, hd, hb, Bolt.computeDigest, ht] at h
            | ok tar =>
              refine ⟨dir1, model, pkgs, ib, bb, tar, ?_, ?_, ?_, ?_, ?_, ?_, ?_⟩ <;>
                first | rfl | assumption | skip
              have hcd := computeDigest_eq c
                ({ q with baseDir :=
                    { dir1 with db := some { packageIndices := ib, bundles := bb } } } : Bolt)
                fs tar { packageIndices := ib, bundles := bb } ht rfl
              simp only [Bolt.Build, he, hl, hp, hd, hb, hcd]

/-- C9: after a `Build` that succeeded, `CheckIntegrity` with the same source
filesystem on the cache as `Build` left it returns nil: the digest read back
from the digest file and trimmed is the digest that `computeDigest` computes
again. -/
theorem CheckIntegrity_after_Build {FS : Type} (c : Collab FS) (q : Bolt) (fs : FS)
    (h : (q.Build c fs).1 = none) :
    (q.Build c fs).2.CheckIntegrity c fs = none ∧
    ∃ digest, (q.Build c fs).2.existingDigest c = .ok digest ∧
      (q.Build c fs).2.computeDigest c fs = .ok digest := by
  obtain ⟨dir1, model, pkgs, ib, bb, tar, -, -, -, -, -, ht, hB⟩ := Build_ok c q fs h
  rw [hB]
  have hcd := computeDigest_eq c
    ({ q with baseDir :=
        { db := some { packageIndices := ib, bundles := bb },
          digest := some (digestOf tar { packageIndices := ib, bundles := bb }) } } : Bolt)
    fs tar { packageIndices := ib, bundles := bb } ht rfl
  have hex : Bolt.existingDigest c
      ({ q with baseDir :=
        { db := some { packageIndices := ib, bundles := bb },
          digest := some (digestOf tar { packageIndices := ib, bundles := bb }) } } : Bolt)
      = .ok (digestOf tar { packageIndices := ib, bundles := bb }) := by
    simp only [Bolt.existingDigest, digestOf, TrimSpace_digest]
  refine ⟨?_, _, hex, hcd⟩
  simp only [Bolt.CheckIntegrity, hex, hcd, ne_eq, not_true_eq_false, if_false]

theorem CheckIntegrity_after_Build_witness :
    (Demo.empty.Build Demo.c Demo.fs).1 = none ∧
    (Demo.empty.Build Demo.c Demo.fs).2.CheckIntegrity Demo.c Demo.fs = none ∧
    ∃ digest, (Demo.empty.Build Demo.c Demo.fs).2.existingDigest Demo.c = .ok digest ∧
      (Demo.empty.Build Demo.c Demo.fs).2.computeDigest Demo.c Demo.fs = .ok digest :=
  ⟨rfl, CheckIntegrity_after_Build Demo.c Demo.empty Demo.fs rfl⟩

theorem stream_append (xs ys : Bucket) : Bucket.stream (xs ++ ys) = xs.stream ++ ys.stream := by
  induction xs with
  | nil => simp [Bucket.stream]
  | cons kv rest ih =>
    obtain ⟨k, v⟩ := kv
    simp [Bucket.stream, ih]

theorem oneByteReplaced_append (x y front back : Bytes) (h : oneByteReplaced x y) :
    oneByteReplaced (front ++ x ++ back) (front ++ y ++ back) := by
  obtain ⟨f, bk, b, b1, hne, hx, hy⟩ := h
  exact ⟨front ++ f, bk ++ back, b, b1, hne, by simp [hx], by simp [hy]⟩

theorem oneValueByteReplaced_stream (x y : Bucket) (h : oneValueByteReplaced x y) :
    oneByteReplaced x.stream y.stream := by
  obtain ⟨xs, ys, k, v, v1, hv, hx, hy⟩ := h
  have := oneByteReplaced_append v v1 (xs.stream ++ k) ys.stream hv
  rw [hx, hy, stream_append, stream_append]
  simpa [Bucket.stream, List.append_assoc] using this

theorem digestInput_single_byte (tar tar1 : Bytes) (db db1 : DB)
    (h : SingleByteChange tar db tar1 db1) :
    oneByteReplaced (digestInput tar db) (digestInput tar1 db1) := by
  rcases h with ⟨ht, hdb⟩ | ⟨ht, hi, hb⟩ | ⟨ht, hi, hb⟩
  · subst hdb
    have := oneByteReplaced_append tar tar1 (ascii "bolt")
      (db1.packageIndices.stream ++ db1.bundles.stream) ht
    simpa [digestInput, List.append_assoc] using this
  · subst ht
    have := oneByteReplaced_append _ _ (ascii "bolt" ++ tar1) db.bundles.stream
      (oneValueByteReplaced_stream _ _ hi)
    simpa [digestInput, hb, List.append_assoc] using this
  · subst ht
    have := oneByteReplaced_append _ _ (ascii "bolt" ++ tar1 ++ db.packageIndices.stream) []
      (oneValueByteReplaced_stream _ _ hb)
    simpa [digestInput, hi, List.append_assoc] using this

theorem digestOf_single_byte (tar tar1 : Bytes) (db db1 : DB)
    (h : SingleByteChange tar db tar1 db1) : digestOf tar db ≠ digestOf tar1 db1 := by
  obtain ⟨front, back, b, b1, hne, hx, hy⟩ := digestInput_single_byte tar tar1 db db1 h
  intro e
  unfold digestOf at e
  rw [hx, hy] at e
  exact Write_single_byte New64a New64a_lt front back b b1 hne
    (Sum_inj _ _ (Write_lt _ New64a_lt _) (Write_lt _ New64a_lt _) e)

/-- C10: after a `Build` that succeeded, replacing one byte of one stored
value of the store, or one byte of the archive bytes of the source
filesystem, by a different byte changes the digest that `computeDigest`
returns, and `CheckIntegrity` against the digest file that `Build` wrote
returns the "cache requires rebuild" error. -/
theorem CheckIntegrity_detects_single_byte {FS : Type} (c : Collab FS) (q : Bolt) (fs fs1 : FS)
    (tar tar1 : Bytes) (db db1 : DB)
    (hbuild : (q.Build c fs).1 = none)
    (htar : c.fsToTar fs = .ok tar) (hdb : (q.Build c fs).2.baseDir.db = some db)
    (htar1 : c.fsToTar fs1 = .ok tar1) (hchange : SingleByteChange tar db tar1 db1) :
    ∃ existing computed,
      (q.Build c fs).2.computeDigest c fs = .ok existing ∧
      ({ (q.Build c fs).2 with
          baseDir := { (q.Build c fs).2.baseDir with db := some db1 } } : Bolt).computeDigest c fs1
        = .ok computed ∧
      existing ≠ computed ∧
      ({ (q.Build c fs).2 with
          baseDir := { (q.Build c fs).2.baseDir with db := some db1 } } : Bolt).CheckIntegrity c fs1
        = some (Err.errorf
          "cache requires rebuild: cache reports digest as %q, but computed digest is %q"
          [existing, computed]) := by
  obtain ⟨dir1, model, pkgs, ib, bb, tar0, -, -, -, -, -, ht, hB⟩ := Build_ok c q fs hbuild
  have htt : tar0 = tar := by
    rw [ht] at htar
    exact Except.ok.inj htar
  subst htt
  rw [hB] at hdb ⊢
  simp only [Option.some.injEq] at hdb
  subst hdb
  have hne := digestOf_single_byte tar0 tar1 _ db1 hchange
  have h1 := computeDigest_eq c
    ({ q with baseDir :=
        { db := some { packageIndices := ib, bundles := bb },
          digest := some (digestOf tar0 { packageIndices := ib, bundles := bb }) } } : Bolt)
    fs tar0 { packageIndices := ib, bundles := bb } ht rfl
  have h2 := computeDigest_eq c
    ({ q with baseDir :=
        { db := some db1,
          digest := some (digestOf tar0 { packageIndices := ib, bundles := bb }) } } : Bolt)
    fs1 tar1 db1 htar1 rfl
  refine ⟨_, _, h1, h2, hne, ?_⟩
  have hex : Bolt.existingDigest c
      ({ q with baseDir :=
        { db := some db1,
          digest := some (digestOf tar0 { packageIndices := ib, bundles := bb }) } } : Bolt)
      = .ok (digestOf tar0 { packageIndices := ib, bundles := bb }) := by
    simp only [Bolt.existingDigest, digestOf, TrimSpace_digest]
  simp only [Bolt.CheckIntegrity, hex, h2, ne_eq, hne, not_false_eq_true, if_true]

theorem CheckIntegrity_detects_single_byte_witness :
    (Demo.empty.Build Demo.c Demo.fs).1 = none ∧
    Demo.c.fsToTar Demo.fs = .ok (ascii "p.yaml") ∧
    (Demo.empty.Build Demo.c Demo.fs).2.baseDir.db =
      some { packageIndices := [(ascii "p.json", [0])], bundles := [(ascii "p/c/b.proto", [0])] } ∧
    Demo.c.fsToTar Demo.fs1 = .ok (ascii "p.yamm") ∧
    SingleByteChange (ascii "p.yaml")
      { packageIndices := [(ascii "p.json", [0])], bundles := [(ascii "p/c/b.proto", [0])] }
      (ascii "p.yamm")
      { packageIndices := [(ascii "p.json", [0])], bundles := [(ascii "p/c/b.proto", [0])] } ∧
    ∃ existing computed,
      (Demo.empty.Build Demo.c Demo.fs).2.computeDigest Demo.c Demo.fs = .ok existing ∧
      ({ (Demo.empty.Build Demo.c Demo.fs).2 with
          baseDir := { (Demo.empty.Build Demo.c Demo.fs).2.baseDir with
            db := some { packageIndices := [(ascii "p.json", [0])],
                         bundles := [(ascii "p/c/b.proto", [0])] } } } : Bolt).computeDigest
          Demo.c Demo.fs1
        = .ok computed ∧
      existing ≠ computed ∧
      ({ (Demo.empty.Build Demo.c Demo.fs).2 with
          baseDir := { (Demo.empty.Build Demo.c Demo.fs).2.baseDir with
            db := some { packageIndices := [(ascii "p.json", [0])],
                         bundles := [(ascii "p/c/b.proto", [0])] } } } : Bolt).CheckIntegrity
          Demo.c Demo.fs1
        = some (Err.errorf
          "cache requires rebuild: cache reports digest as %q, but computed digest is %q"
          [existing, computed]) :=
  have hchange : SingleByteChange (ascii "p.yaml")
      { packageIndices := [(ascii "p.json", [0])], bundles := [(ascii "p/c/b.proto", [0])] }
      (ascii "p.yamm")
      { packageIndices := [(ascii "p.json", [0])], bundles := [(ascii "p/c/b.proto", [0])] } :=
    Or.inl ⟨⟨ascii "p.yam", [], 108, 109, by decide, by decide, by decide⟩, rfl⟩
  ⟨rfl, rfl, by decide, rfl, hchange,
    CheckIntegrity_detects_single_byte Demo.c Demo.empty Demo.fs Demo.fs1 _ _ _ _ rfl rfl
      (by decide) rfl hchange⟩

/-! ## The round trip `Build`, `Load`, `GetBundle` -/

theorem Bucket.Get_insert_same (b : Bucket) (k v : Bytes) : (b.insert k v).Get k = some v := by
  induction b with
  | nil => simp [Bucket.insert, Bucket.Get]
  | cons kv rest ih =>
    obtain ⟨k1, v1⟩ := kv
    unfold Bucket.insert
    by_cases h : k = k1
    · simp [h, Bucket.Get]
    · by_cases h2 : k < k1
      · simp [h, h2, Bucket.Get]
      · simp [h, h2, Bucket.Get, ih]

theorem Bucket.Get_insert_other (b : Bucket) (k v k2 : Bytes) (hne : k2 ≠ k) :
    (b.insert k v).Get k2 = b.Get k2 := by
  induction b with
  | nil => simp [Bucket.insert, Bucket.Get, hne]
  | cons kv rest ih =>
    obtain ⟨k1, v1⟩ := kv
    unfold Bucket.insert
    by_cases h : k = k1
    · subst h
      simp [Bucket.Get, hne]
    · by_cases h2 : k < k1
      · simp [h, h2, Bucket.Get, hne]
      · simp only [h, h2, if_false, Bucket.Get, ih]

theorem Bucket.mem_insert (b : Bucket) (k v : Bytes) (x : Bytes × Bytes)
    (hx : x ∈ b.insert k v) : x = (k, v) ∨ x ∈ b := by
  induction b with
  | nil => simpa [Bucket.insert] using hx
  | cons kv rest ih =>
    obtain ⟨k1, v1⟩ := kv
    unfold Bucket.insert at hx
    by_cases h : k = k1
    · simp only [h, if_true, List.mem_cons] at hx
      rcases hx with hx | hx
      · exact Or.inl (by rw [hx, h])
      · exact Or.inr (List.mem_cons_of_mem _ hx)
    · by_cases h2 : k < k1
      · simp only [h, h2, if_false, if_true, List.mem_cons] at hx
        rcases hx with hx | hx | hx
        · exact Or.inl hx
        · exact Or.inr (by rw [hx]; exact List.mem_cons_self _ _)
        · exact Or.inr (List.mem_cons_of_mem _ hx)
      · simp only [h, h2, if_false, List.mem_cons] at hx
        rcases hx with hx | hx
        · exact Or.inr (by rw [hx]; exact List.mem_cons_self _ _)
        · rcases ih hx with h3 | h3
          · exact Or.inl h3
          · exact Or.inr (List.mem_cons_of_mem _ h3)

theorem Bucket.Get_mem (b : Bucket) (k v : Bytes) (h : b.Get k = some v) : (k, v) ∈ b := by
  induction b with
  | nil => simp [Bucket.Get] at h
  | cons kv rest ih =>
    obtain ⟨k1, v1⟩ := kv
    unfold Bucket.Get at h
    by_cases hk : k = k1
    · simp only [hk, if_true, Option.some.injEq] at h
      rw [hk, h]
      exact List.mem_cons_self _ _
    · simp only [hk, if_false] at h
      exact List.mem_cons_of_mem _ (ih h)

theorem Bucket.Put_ok (b b1 : Bucket) (k v : Bytes) (h : b.Put k v = .ok b1) :
    b1 = b.insert k v := by
  unfold Bucket.Put at h
  split at h
  · cases h
  · split at h
    · cases h
    · split at h
      · cases h
      · exact (Except.ok.inj h).symm

theorem GoMap.get_set_same {V : Type} (m : GoMap V) (k : Bytes) (v : V) :
    (m.set k v).get k = some v := by
  induction m with
  | nil => simp [GoMap.set, GoMap.get]
  | cons kv rest ih =>
    obtain ⟨k1, v1⟩ := kv
    unfold GoMap.set
    by_cases h : k = k1
    · simp [h, GoMap.get]
    · simp [h, GoMap.get, ih]

theorem GoMap.get_set_other {V : Type} (m : GoMap V) (k k2 : Bytes) (v : V) (hne : k2 ≠ k) :
    (m.set k v).get k2 = m.get k2 := by
  induction m with
  | nil => simp [GoMap.set, GoMap.get, hne]
  | cons kv rest ih =>
    obtain ⟨k1, v1⟩ := kv
    unfold GoMap.set
    by_cases h : k = k1
    · subst h
      simp [GoMap.get, hne]
    · simp only [h, if_false, GoMap.get, ih]

theorem Build_bundles_cons {FS : Type} (c : Collab FS) (p cn : Bytes) (b : ModelBundle)
    (rest : List ModelBundle) (bb bb1 : Bucket)
    (h : Bolt.Build.bundles c p cn (b :: rest) bb = .ok bb1) :
    ∃ val, Bolt.Build.record c b = .ok val ∧
      Bolt.Build.bundles c p cn rest (bb.insert (bundleKey p cn b.Name) val) = .ok bb1 := by
  unfold Bolt.Build.bundles at h
  cases hc : c.ConvertModelBundleToAPIBundle b with
  | error e => simp [hc] at h
  | ok r =>
    cases hm : c.Marshal r with
    | error e => simp [hc, hm] at h
    | ok val =>
      cases hp : Bucket.Put bb (bundleKey p cn b.Name) val with
      | error e => simp [hc, hm, hp] at h
      | ok b2 =>
        simp only [hc, hm, hp] at h
        refine ⟨val, by simp [Bolt.Build.record, hc, hm], ?_⟩
        rw [← Bucket.Put_ok _ _ _ _ hp]
        exact h

theorem Build_channels_cons {FS : Type} (c : Collab FS) (p : Bytes) (ch : ModelChannel)
    (rest : List ModelChannel) (bb bb1 : Bucket)
    (h : Bolt.Build.channels c p (ch :: rest) bb = .ok bb1) :
    ∃ mid, Bolt.Build.bundles c p ch.Name ch.Bundles bb = .ok mid ∧
      Bolt.Build.channels c p rest mid = .ok bb1 := by
  unfold Bolt.Build.channels at h
  cases hh : c.Head ch with
  | error e => simp [hh] at h
  | ok hd =>
    cases hb : Bolt.Build.bundles c p ch.Name ch.Bundles bb with
    | error e => simp [hh, hb] at h
    | ok mid =>
      simp only [hh, hb] at h
      exact ⟨mid, rfl, h⟩

theorem Build_packages_cons {FS : Type} (c : Collab FS) (pkgs : GoMap cPkg) (pkg : ModelPackage)
    (rest : Model) (ib bb ib1 bb1 : Bucket)
    (h : Bolt.Build.packages c pkgs (pkg :: rest) ib bb = .ok (ib1, bb1)) :
    ∃ v mid, c.jsonEncode ((pkgs.get pkg.Name).getD cPkg.zero) = .ok v ∧
      Bolt.Build.channels c pkg.Name pkg.Channels bb = .ok mid ∧
      Bolt.Build.packages c pkgs rest (ib.insert (pkgIndexKey pkg.Name) v) mid = .ok (ib1, bb1) := by
  unfold Bolt.Build.packages at h
  cases hj : c.jsonEncode ((pkgs.get pkg.Name).getD cPkg.zero) with
  | error e => simp [hj] at h
  | ok v =>
    cases hp : Bucket.Put ib (pkgIndexKey pkg.Name) v with
    | error e => simp [hj, hp] at h
    | ok i2 =>
      cases hc : Bolt.Build.channels c pkg.Name pkg.Channels bb with
      | error e => simp [hj, hp, hc] at h
      | ok mid =>
        simp only [hj, hp, hc] at h
        refine ⟨v, mid, rfl, rfl, ?_⟩
        rw [← Bucket.Put_ok _ _ _ _ hp]
        exact h

/-- After the loop over the bundles of a channel, a key that the loop wrote
holds the bytes of the bundle it was written for, provided every bundle of
the loop with that key has those bytes. -/
theorem Build_bundles_get {FS : Type} (c : Collab FS) (p cn k val : Bytes) :
    ∀ (bs : List ModelBundle) (bb bb1 : Bucket),
      Bolt.Build.bundles c p cn bs bb = .ok bb1 →
      (∀ b1 ∈ bs, bundleKey p cn b1.Name = k → Bolt.Build.record c b1 = .ok val) →
      (bb.Get k = some val ∨ ∃ b ∈ bs, bundleKey p cn b.Name = k) →
      bb1.Get k = some val := by
  intro bs
  induction bs with
  | nil =>
    intro bb bb1 h _ hk
    simp only [Bolt.Build.bundles, Except.ok.injEq] at h
    subst h
    rcases hk with hk | ⟨b, hb, _⟩
    · exact hk
    · simp at hb
  | cons b rest ih =>
    intro bb bb1 h hall hk
    obtain ⟨v0, hrec, hrest⟩ := Build_bundles_cons c p cn b rest bb bb1 h
    apply ih _ _ hrest (fun b1 hb1 => hall b1 (List.mem_cons_of_mem _ hb1))
    by_cases hkey : bundleKey p cn b.Name = k
    · left
      have := hall b (List.mem_cons_self _ _) hkey
      rw [hrec] at this
      rw [hkey, Except.ok.inj this]
      exact Bucket.Get_insert_same _ _ _
    · rw [Bucket.Get_insert_other _ _ _ _ (Ne.symm hkey)]
      rcases hk with hk | ⟨b2, hb2, hk2⟩
      · exact Or.inl hk
      · rcases List.mem_cons.mp hb2 with e | e
        · subst e
          exact absurd hk2 hkey
        · exact Or.inr ⟨b2, e, hk2⟩

theorem Build_channels_get {FS : Type} (c : Collab FS) (p k val : Bytes) :
    ∀ (chs : List ModelChannel) (bb bb1 : Bucket),
      Bolt.Build.channels c p chs bb = .ok bb1 →
      (∀ ch1 ∈ chs, ∀ b1 ∈ ch1.Bundles, bundleKey p ch1.Name b1.Name = k →
        Bolt.Build.record c b1 = .ok val) →
      (bb.Get k = some val ∨ ∃ ch ∈ chs, ∃ b ∈ ch.Bundles, bundleKey p ch.Name b.Name = k) →
      bb1.Get k = some val := by
  intro chs
  induction chs with
  | nil =>
    intro bb bb1 h _ hk
    simp only [Bolt.Build.channels, Except.ok.injEq] at h
    subst h
    rcases hk with hk | ⟨ch, hch, _⟩
    · exact hk
    · simp at hch
  | cons ch rest ih =>
    intro bb bb1 h hall hk
    obtain ⟨mid, hb, hrest⟩ := Build_channels_cons c p ch rest bb bb1 h
    apply ih _ _ hrest (fun ch1 hch1 => hall ch1 (List.mem_cons_of_mem _ hch1))
    have hmid := Build_bundles_get c p ch.Name k val ch.Bundles bb mid hb
      (hall ch (List.mem_cons_self _ _))
    rcases hk with hk | ⟨ch2, hch2, b2, hb2, hk2⟩
    · exact Or.inl (hmid (Or.inl hk))
    · rcases List.mem_cons.mp hch2 with e | e
      · subst e
        exact Or.inl (hmid (Or.inr ⟨b2, hb2, hk2⟩))
      · exact Or.inr ⟨ch2, e, b2, hb2, hk2⟩

theorem Build_packages_get {FS : Type} (c : Collab FS) (pkgs : GoMap cPkg) (k val : Bytes) :
    ∀ (m : Model) (ib bb ib1 bb1 : Bucket),
      Bolt.Build.packages c pkgs m ib bb = .ok (ib1, bb1) →
      (∀ p1 ∈ m, ∀ ch1 ∈ p1.Channels, ∀ b1 ∈ ch1.Bundles,
        bundleKey p1.Name ch1.Name b1.Name = k → Bolt.Build.record c b1 = .ok val) →
      (bb.Get k = some val ∨
        ∃ p ∈ m, ∃ ch ∈ p.Channels, ∃ b ∈ ch.Bundles, bundleKey p.Name ch.Name b.Name = k) →
      bb1.Get k = some val := by
  intro m
  induction m with
  | nil =>
    intro ib bb ib1 bb1 h _ hk
    simp only [Bolt.Build.packages, Except.ok.injEq, Prod.mk.injEq] at h
    obtain ⟨-, h2⟩ := h
    subst h2
    rcases hk with hk | ⟨p, hp, _⟩
    · exact hk
    · simp at hp
  | cons pkg rest ih =>
    intro ib bb ib1 bb1 h hall hk
    obtain ⟨v, mid, -, hc, hrest⟩ := Build_packages_cons c pkgs pkg rest ib bb ib1 bb1 h
    apply ih _ _ _ _ hrest (fun p1 hp1 => hall p1 (List.mem_cons_of_mem _ hp1))
    have hmid := Build_channels_get c pkg.Name k val pkg.Channels bb mid hc
      (hall pkg (List.mem_cons_self _ _))
    rcases hk with hk | ⟨p2, hp2, ch2, hch2, b2, hb2, hk2⟩
    · exact Or.inl (hmid (Or.inl hk))
    · rcases List.mem_cons.mp hp2 with e | e
      · subst e
        exact Or.inl (hmid (Or.inr ⟨ch2, hch2, b2, hb2, hk2⟩))
      · exact Or.inr ⟨p2, e, ch2, hch2, b2, hb2, hk2⟩

theorem Build_bundles_record {FS : Type} (c : Collab FS) (p cn : Bytes) :
    ∀ (bs : List ModelBundle) (bb bb1 : Bucket),
      Bolt.Build.bundles c p cn bs bb = .ok bb1 →
      ∀ b ∈ bs, ∃ val, Bolt.Build.record c b = .ok val := by
  intro bs
  induction bs with
  | nil => intro _ _ _ b hb; simp at hb
  | cons b0 rest ih =>
    intro bb bb1 h b hb
    obtain ⟨v0, hrec, hrest⟩ := Build_bundles_cons c p cn b0 rest bb bb1 h
    rcases List.mem_cons.mp hb with e | e
    · subst e
      exact ⟨v0, hrec⟩
    · exact ih _ _ hrest b e

theorem Build_channels_record {FS : Type} (c : Collab FS) (p : Bytes) :
    ∀ (chs : List ModelChannel) (bb bb1 : Bucket),
      Bolt.Build.channels c p chs bb = .ok bb1 →
      ∀ ch ∈ chs, ∀ b ∈ ch.Bundles, ∃ val, Bolt.Build.record c b = .ok val := by
  intro chs
  induction chs with
  | nil => intro _ _ _ ch hch; simp at hch
  | cons ch0 rest ih =>
    intro bb bb1 h ch hch b hb
    obtain ⟨mid, hbs, hrest⟩ := Build_channels_cons c p ch0 rest bb bb1 h
    rcases List.mem_cons.mp hch with e | e
    · subst e
      exact Build_bundles_record c p _ _ _ _ hbs b hb
    · exact ih _ _ hrest ch e b hb

theorem Build_packages_record {FS : Type} (c : Collab FS) (pkgs : GoMap cPkg) :
    ∀ (m : Model) (ib bb ib1 bb1 : Bucket),
      Bolt.Build.packages c pkgs m ib bb = .ok (ib1, bb1) →
      ∀ p ∈ m, ∀ ch ∈ p.Channels, ∀ b ∈ ch.Bundles, ∃ val, Bolt.Build.record c b = .ok val := by
  intro m
  induction m with
  | nil => intro _ _ _ _ _ p hp; simp at hp
  | cons p0 rest ih =>
    intro ib bb ib1 bb1 h p hp ch hch b hb
    obtain ⟨v, mid, -, hc, hrest⟩ := Build_packages_cons c pkgs p0 rest ib bb ib1 bb1 h
    rcases List.mem_cons.mp hp with e | e
    · subst e
      exact Build_channels_record c _ _ _ _ hc ch hch b hb
    · exact ih _ _ _ _ hrest p e ch hch b hb

theorem pkgIndexKey_inj (a b : Bytes) (h : pkgIndexKey a = pkgIndexKey b) : a = b :=
  List.append_cancel_right h

theorem Build_packages_index_frame {FS : Type} (c : Collab FS) (pkgs : GoMap cPkg) (k : Bytes) :
    ∀ (m : Model) (ib bb ib1 bb1 : Bucket),
      Bolt.Build.packages c pkgs m ib bb = .ok (ib1, bb1) →
      (∀ p ∈ m, pkgIndexKey p.Name ≠ k) → ib1.Get k = ib.Get k := by
  intro m
  induction m with
  | nil =>
    intro ib bb ib1 bb1 h _
    simp only [Bolt.Build.packages, Except.ok.injEq, Prod.mk.injEq] at h
    rw [h.1]
  | cons pkg rest ih =>
    intro ib bb ib1 bb1 h hne
    obtain ⟨v, mid, -, -, hrest⟩ := Build_packages_cons c pkgs pkg rest ib bb ib1 bb1 h
    rw [ih _ _ _ _ hrest (fun p hp => hne p (List.mem_cons_of_mem _ hp))]
    exact Bucket.Get_insert_other _ _ _ _ (Ne.symm (hne pkg (List.mem_cons_self _ _)))

theorem Build_packages_index_get {FS : Type} (c : Collab FS) (pkgs : GoMap cPkg) :
    ∀ (m : Model) (ib bb ib1 bb1 : Bucket),
      Bolt.Build.packages c pkgs m ib bb = .ok (ib1, bb1) →
      (m.map (fun p => p.Name)).Nodup →
      ∀ p ∈ m, ∃ v, c.jsonEncode ((pkgs.get p.Name).getD cPkg.zero) = .ok v ∧
        ib1.Get (pkgIndexKey p.Name) = some v := by
  intro m
  induction m with
  | nil => intro _ _ _ _ _ _ p hp; simp at hp
  | cons pkg rest ih =>
    intro ib bb ib1 bb1 h hnd p hp
    obtain ⟨v, mid, hj, -, hrest⟩ := Build_packages_cons c pkgs pkg rest ib bb ib1 bb1 h
    simp only [List.map_cons, List.nodup_cons, List.mem_map, not_exists, not_and] at hnd
    rcases List.mem_cons.mp hp with e | e
    · subst e
      refine ⟨v, hj, ?_⟩
      rw [Build_packages_index_frame c pkgs _ rest _ _ _ _ hrest
        (fun p1 hp1 hk => hnd.1 p1 hp1 (pkgIndexKey_inj _ _ hk))]
      exact Bucket.Get_insert_same _ _ _
    · exact ih _ _ _ _ hrest hnd.2 p e

theorem Build_packages_index_mem {FS : Type} (c : Collab FS) (pkgs : GoMap cPkg) :
    ∀ (m : Model) (ib bb ib1 bb1 : Bucket),
      Bolt.Build.packages c pkgs m ib bb = .ok (ib1, bb1) →
      ∀ x ∈ ib1, x ∈ ib ∨
        ∃ p ∈ m, c.jsonEncode ((pkgs.get p.Name).getD cPkg.zero) = .ok x.2 := by
  intro m
  induction m with
  | nil =>
    intro ib bb ib1 bb1 h x hx
    simp only [Bolt.Build.packages, Except.ok.injEq, Prod.mk.injEq] at h
    rw [← h.1] at hx
    exact Or.inl hx
  | cons pkg rest ih =>
    intro ib bb ib1 bb1 h x hx
    obtain ⟨v, mid, hj, -, hrest⟩ := Build_packages_cons c pkgs pkg rest ib bb ib1 bb1 h
    rcases ih _ _ _ _ hrest x hx with h1 | ⟨p, hp, hpe⟩
    · rcases Bucket.mem_insert _ _ _ _ h1 with h2 | h2
      · right
        refine ⟨pkg, List.mem_cons_self _ _, ?_⟩
        rw [h2]
        exact hj
      · exact Or.inl h2
    · exact Or.inr ⟨p, List.mem_cons_of_mem _ hp, hpe⟩

theorem bundlesFromModel_frame (k : Bytes) :
    ∀ (bs : List ModelBundle) (m : GoMap cBundle),
      (∀ b ∈ bs, b.Name ≠ k) → (bundlesFromModel bs m).get k = m.get k := by
  intro bs
  induction bs with
  | nil => intro m _; rfl
  | cons b rest ih =>
    intro m hne
    simp only [bundlesFromModel]
    rw [ih _ (fun b1 hb1 => hne b1 (List.mem_cons_of_mem _ hb1))]
    exact GoMap.get_set_other _ _ _ _ (Ne.symm (hne b (List.mem_cons_self _ _)))

theorem bundlesFromModel_get :
    ∀ (bs : List ModelBundle) (m : GoMap cBundle), (bs.map (fun b => b.Name)).Nodup →
      ∀ b ∈ bs, (bundlesFromModel bs m).get b.Name = some (cBundleFromModel b) := by
  intro bs
  induction bs with
  | nil => intro _ _ b hb; simp at hb
  | cons b0 rest ih =>
    intro m hnd b hb
    simp only [List.map_cons, List.nodup_cons, List.mem_map, not_exists, not_and] at hnd
    simp only [bundlesFromModel]
    rcases List.mem_cons.mp hb with e | e
    · subst e
      rw [bundlesFromModel_frame _ rest _ (fun b1 hb1 => hnd.1 b1 hb1)]
      exact GoMap.get_set_same _ _ _
    · exact ih _ hnd.2 b e

theorem channelsFromModel_cons {FS : Type} (c : Collab FS) (ch : ModelChannel)
    (rest : List ModelChannel) (m m1 : GoMap cChannel)
    (h : channelsFromModel c (ch :: rest) m = .ok m1) :
    ∃ head, c.Head ch = .ok head ∧
      channelsFromModel c rest
        (m.set ch.Name { Name := ch.Name, Head := head.Name,
                         Bundles := bundlesFromModel ch.Bundles [] }) = .ok m1 := by
  unfold channelsFromModel at h
  cases hh : c.Head ch with
  | error e => simp [hh] at h
  | ok head =>
    simp only [hh] at h
    exact ⟨head, rfl, h⟩

theorem channelsFromModel_frame {FS : Type} (c : Collab FS) (k : Bytes) :
    ∀ (chs : List ModelChannel) (m m1 : GoMap cChannel),
      channelsFromModel c chs m = .ok m1 →
      (∀ ch ∈ chs, ch.Name ≠ k) → m1.get k = m.get k := by
  intro chs
  induction chs with
  | nil =>
    intro m m1 h _
    simp only [channelsFromModel, Except.ok.injEq] at h
    rw [h]
  | cons ch rest ih =>
    intro m m1 h hne
    obtain ⟨head, -, hrest⟩ := channelsFromModel_cons c ch rest m m1 h
    rw [ih _ _ hrest (fun c1 hc1 => hne c1 (List.mem_cons_of_mem _ hc1))]
    exact GoMap.get_set_other _ _ _ _ (Ne.symm (hne ch (List.mem_cons_self _ _)))

theorem channelsFromModel_get {FS : Type} (c : Collab FS) :
    ∀ (chs : List ModelChannel) (m m1 : GoMap cChannel),
      channelsFromModel c chs m = .ok m1 → (chs.map (fun ch => ch.Name)).Nodup →
      ∀ ch ∈ chs, ∃ head,
        m1.get ch.Name = some { Name := ch.Name, Head := head,
                                Bundles := bundlesFromModel ch.Bundles [] } := by
  intro chs
  induction chs with
  | nil => intro _ _ _ _ ch hch; simp at hch
  | cons ch0 rest ih =>
    intro m m1 h hnd ch hch
    obtain ⟨head, -, hrest⟩ := channelsFromModel_cons c ch0 rest m m1 h
    simp only [List.map_cons, List.nodup_cons, List.mem_map, not_exists, not_and] at hnd
    rcases List.mem_cons.mp hch with e | e
    · subst e
      refine ⟨head.Name, ?_⟩
      rw [channelsFromModel_frame c _ rest _ _ hrest (fun c1 hc1 => hnd.1 c1 hc1)]
      exact GoMap.get_set_same _ _ _
    · exact ih _ _ hrest hnd.2 ch e

theorem packagesFromModel_cons {FS : Type} (c : Collab FS) (p : ModelPackage) (rest : Model)
    (m m1 : GoMap cPkg) (h : packagesFromModel c (p :: rest) m = .ok m1) :
    ∃ chs, channelsFromModel c p.Channels [] = .ok chs ∧
      packagesFromModel c rest
        (m.set p.Name { Name := p.Name, DefaultChannel := p.DefaultChannel, Channels := chs })
        = .ok m1 := by
  unfold packagesFromModel at h
  cases hh : channelsFromModel c p.Channels [] with
  | error e => simp [hh] at h
  | ok chs =>
    simp only [hh] at h
    exact ⟨chs, rfl, h⟩

theorem packagesFromModel_frame {FS : Type} (c : Collab FS) (k : Bytes) :
    ∀ (ps : Model) (m m1 : GoMap cPkg),
      packagesFromModel c ps m = .ok m1 →
      (∀ p ∈ ps, p.Name ≠ k) → m1.get k = m.get k := by
  intro ps
  induction ps with
  | nil =>
    intro m m1 h _
    simp only [packagesFromModel, Except.ok.injEq] at h
    rw [h]
  | cons p rest ih =>
    intro m m1 h hne
    obtain ⟨chs, -, hrest⟩ := packagesFromModel_cons c p rest m m1 h
    rw [ih _ _ hrest (fun p1 hp1 => hne p1 (List.mem_cons_of_mem _ hp1))]
    exact GoMap.get_set_other _ _ _ _ (Ne.symm (hne p (List.mem_cons_self _ _)))

theorem packagesFromModel_get {FS : Type} (c : Collab FS) :
    ∀ (ps : Model) (m m1 : GoMap cPkg),
      packagesFromModel c ps m = .ok m1 → (ps.map (fun p => p.Name)).Nodup →
      ∀ p ∈ ps, ∃ chs, channelsFromModel c p.Channels [] = .ok chs ∧
        m1.get p.Name =
          some { Name := p.Name, DefaultChannel := p.DefaultChannel, Channels := chs } := by
  intro ps
  induction ps with
  | nil => intro _ _ _ _ p hp; simp at hp
  | cons p0 rest ih =>
    intro m m1 h hnd p hp
    obtain ⟨chs, hchs, hrest⟩ := packagesFromModel_cons c p0 rest m m1 h
    simp only [List.map_cons, List.nodup_cons, List.mem_map, not_exists, not_and] at hnd
    rcases List.mem_cons.mp hp with e | e
    · subst e
      refine ⟨chs, hchs, ?_⟩
      rw [packagesFromModel_frame c _ rest _ _ hrest (fun p1 hp1 => hnd.1 p1 hp1)]
      exact GoMap.get_set_same _ _ _
    · exact ih _ _ hrest hnd.2 p e

/-- The loop of `Load` over the index partition: when every entry decodes, and
every entry that decodes to a package named `n` decodes to `target`, the loop
succeeds and leaves `target` at `n`, provided some entry has that name. -/
theorem Load_ForEach {FS : Type} (c : Collab FS) (n : Bytes) (target : cPkg) :
    ∀ (entries : Bucket) (m : GoMap cPkg),
      (∀ e ∈ entries, ∃ x, c.jsonDecode e.2 = .ok x ∧ (x.Name = n → x = target)) →
      (m.get n = some target ∨ ∃ e ∈ entries, ∃ x, c.jsonDecode e.2 = .ok x ∧ x.Name = n) →
      ∃ m1, Bucket.ForEach (Bolt.Load.each c) entries m = (none, m1) ∧
        m1.get n = some target := by
  intro entries
  induction entries with
  | nil =>
    intro m _ hk
    refine ⟨m, rfl, ?_⟩
    rcases hk with hk | ⟨e, he, _⟩
    · exact hk
    · simp at he
  | cons kv rest ih =>
    intro m hall hk
    obtain ⟨k, v⟩ := kv
    obtain ⟨x, hx, hxt⟩ := hall (k, v) (List.mem_cons_self _ _)
    simp only at hx
    have hstep : Bucket.ForEach (Bolt.Load.each c) ((k, v) :: rest) m =
        Bucket.ForEach (Bolt.Load.each c) rest (m.set x.Name x) := by
      simp only [Bucket.ForEach, Bolt.Load.each, hx]
    rw [hstep]
    apply ih _ (fun e he => hall e (List.mem_cons_of_mem _ he))
    by_cases hn : x.Name = n
    · left
      rw [← hn, GoMap.get_set_same, hxt hn]
    · rw [GoMap.get_set_other _ _ _ _ (Ne.symm hn)]
      rcases hk with hk | ⟨e, he, y, hy, hyn⟩
      · exact Or.inl hk
      · rcases List.mem_cons.mp he with e1 | e1
        · subst e1
          simp only at hy
          rw [hx] at hy
          exact absurd ((Except.ok.inj hy) ▸ hyn) hn
        · exact Or.inr ⟨e, e1, y, hy, hyn⟩

theorem Load_eq {FS : Type} (c : Collab FS) (q : Bolt) (db : DB) (m1 : GoMap cPkg)
    (hdb : q.baseDir.db = some db)
    (hloop : Bucket.ForEach (Bolt.Load.each c) db.packageIndices [] = (none, m1)) :
    q.Load c = (none, { q with db := ⟨none, 0⟩, packageIndex := m1 }) := by
  have hopen : q.openDBReadOnly () = .ok db := by simp [Bolt.openDBReadOnly, hdb]
  unfold Bolt.Load
  simp only [With_fresh _ Bolt.dbClose _ _ db hopen rfl, DB.View, hloop, NewAggregate_pair]

theorem nodup_names_eq {α : Type} (f : α → Bytes) (l : List α) (h : (l.map f).Nodup)
    (x y : α) (hx : x ∈ l) (hy : y ∈ l) (e : f x = f y) : x = y :=
  List.inj_on_of_nodup_map h hx hy e

/-- C7 (amended): after a `Build` that succeeded on a well-formed model, with
codecs that decode what they encoded, `Load` succeeds and, for every bundle
occurrence whose key is written for no other occurrence, `GetBundle` returns
the record `Build` encoded for it, read from the key `Build` wrote it under,
with only `Replaces` and `Skips` cleared. -/
theorem GetBundle_after_Build_Load {FS : Type} (c : Collab FS) (q : Bolt) (fs : FS)
    (model : Model) (pkg : ModelPackage) (ch : ModelChannel) (b : ModelBundle)
    (hbuild : (q.Build c fs).1 = none) (hmodel : c.LoadModel fs = .ok model)
    (hwf : WellFormedModel model)
    (hjson : ∀ idx v, c.jsonEncode idx = .ok v → c.jsonDecode v = .ok idx)
    (hproto : ∀ r v, c.Marshal r = .ok v → c.Unmarshal v = .ok r)
    (hpkg : pkg ∈ model) (hch : ch ∈ pkg.Channels) (hb : b ∈ ch.Bundles)
    (hkey : ∀ p1 ∈ model, ∀ ch1 ∈ p1.Channels, ∀ b1 ∈ ch1.Bundles,
      bundleKey p1.Name ch1.Name b1.Name = bundleKey pkg.Name ch.Name b.Name →
      p1.Name = pkg.Name ∧ ch1.Name = ch.Name ∧ b1.Name = b.Name) :
    ∃ db record val,
      c.ConvertModelBundleToAPIBundle b = .ok record ∧ c.Marshal record = .ok val ∧
      (q.Build c fs).2.baseDir.db = some db ∧
      db.bundles.Get (bundleKey pkg.Name ch.Name b.Name) = some val ∧
      ((q.Build c fs).2.Load c).1 = none ∧
      (((q.Build c fs).2.Load c).2.GetBundle c pkg.Name ch.Name b.Name).1 =
        .ok { record with Replaces := [], Skips := [] } := by
  obtain ⟨dir1, model0, pkgs, ib, bb, tar, -, hl, hpk, -, hbp, -, hB⟩ := Build_ok c q fs hbuild
  have hm : model0 = model := by
    rw [hl] at hmodel
    exact Except.ok.inj hmodel
  subst hm
  obtain ⟨hnd, hwfp⟩ := hwf
  -- the bytes stored for the occurrence
  obtain ⟨val, hrec⟩ := Build_packages_record c pkgs _ _ _ _ _ hbp pkg hpkg ch hch b hb
  have hsame : ∀ p1 ∈ model0, ∀ ch1 ∈ p1.Channels, ∀ b1 ∈ ch1.Bundles,
      bundleKey p1.Name ch1.Name b1.Name = bundleKey pkg.Name ch.Name b.Name →
      Bolt.Build.record c b1 = .ok val := by
    intro p1 hp1 ch1 hch1 b1 hb1 hk
    obtain ⟨e1, e2, e3⟩ := hkey p1 hp1 ch1 hch1 b1 hb1 hk
    have ep : p1 = pkg := nodup_names_eq _ _ hnd p1 pkg hp1 hpkg e1
    subst ep
    have ec : ch1 = ch := nodup_names_eq _ _ (hwfp p1 hp1).1 ch1 ch hch1 hch e2
    subst ec
    have eb : b1 = b := nodup_names_eq _ _ ((hwfp p1 hp1).2 ch1 hch1) b1 b hb1 hb e3
    subst eb
    exact hrec
  have hget : bb.Get (bundleKey pkg.Name ch.Name b.Name) = some val :=
    Build_packages_get c pkgs _ val _ _ _ _ _ hbp hsame
      (Or.inr ⟨pkg, hpkg, ch, hch, b, hb, rfl⟩)
  have hcm : ∃ record, c.ConvertModelBundleToAPIBundle b = .ok record ∧
      c.Marshal record = .ok val := by
    unfold Bolt.Build.record at hrec
    cases hcv : c.ConvertModelBundleToAPIBundle b with
    | error e => simp [hcv] at hrec
    | ok r =>
      simp only [hcv] at hrec
      exact ⟨r, rfl, hrec⟩
  obtain ⟨record, hcv, hmar⟩ := hcm
  -- the index
  have hidx : ∀ p ∈ model0, ∃ chs, channelsFromModel c p.Channels [] = .ok chs ∧
      (pkgs.get p.Name).getD cPkg.zero =
        { Name := p.Name, DefaultChannel := p.DefaultChannel, Channels := chs } := by
    intro p hp
    obtain ⟨chs, h1, h2⟩ := packagesFromModel_get c _ _ _ hpk hnd p hp
    exact ⟨chs, h1, by rw [h2]; rfl⟩
  obtain ⟨chs, hchs, hidxp⟩ := hidx pkg hpkg
  obtain ⟨head, hgetch⟩ := channelsFromModel_get c _ _ _ hchs (hwfp pkg hpkg).1 ch hch
  have hgetb := bundlesFromModel_get ch.Bundles [] ((hwfp pkg hpkg).2 ch hch) b hb
  -- the loop of Load
  have hall : ∀ e ∈ ib, ∃ x, c.jsonDecode e.2 = .ok x ∧
      (x.Name = pkg.Name →
        x = { Name := pkg.Name, DefaultChannel := pkg.DefaultChannel, Channels := chs }) := by
    intro e he
    rcases Build_packages_index_mem c pkgs _ _ _ _ _ hbp e he with h0 | ⟨p, hp, henc⟩
    · simp at h0
    · refine ⟨_, hjson _ _ henc, ?_⟩
      obtain ⟨chs1, -, h3⟩ := hidx p hp
      intro hn
      rw [h3] at hn
      have ep : p = pkg := nodup_names_eq _ _ hnd p pkg hp hpkg hn
      subst ep
      exact hidxp
  obtain ⟨v, henc, hgetv⟩ := Build_packages_index_get c pkgs _ _ _ _ _ hbp hnd pkg hpkg
  have hex : ∃ e ∈ ib, ∃ x, c.jsonDecode e.2 = .ok x ∧ x.Name = pkg.Name :=
    ⟨(pkgIndexKey pkg.Name, v), Bucket.Get_mem _ _ _ hgetv, _, hjson _ _ henc, by rw [hidxp]⟩
  obtain ⟨m1, hloop, hm1⟩ := Load_ForEach c pkg.Name
    { Name := pkg.Name, DefaultChannel := pkg.DefaultChannel, Channels := chs } ib [] hall
    (Or.inr hex)
  have hLoad := Load_eq c
    ({ q with baseDir :=
        { db := some { packageIndices := ib, bundles := bb },
          digest := some (digestOf tar { packageIndices := ib, bundles := bb }) } } : Bolt)
    { packageIndices := ib, bundles := bb } m1 rfl hloop
  rw [hB]
  refine ⟨_, record, val, hcv, hmar, rfl, hget, ?_, ?_⟩
  · rw [hLoad]
  · rw [hLoad]
    have := GetBundle_found c
      ({ baseDir :=
          { db := some { packageIndices := ib, bundles := bb },
            digest := some (digestOf tar { packageIndices := ib, bundles := bb }) },
         packageIndex := m1, db := ⟨none, 0⟩ } : Bolt)
      pkg.Name ch.Name b.Name val _ _ _ { packageIndices := ib, bundles := bb } record
      hm1 hgetch hgetb rfl rfl hget (hproto _ _ hmar)
    simp only [this]

theorem Demo.decode_encode {α : Type} [DecidableEq α] (table : List α)
    (hlen : table.length ≤ 256) (a : α) (v : Bytes) (h : Demo.encode table a = .ok v) :
    Demo.decode table v = .ok a := by
  unfold Demo.encode at h
  by_cases hlt : table.indexOf a < table.length
  · simp only [hlt, if_true, Except.ok.injEq] at h
    subst h
    have hval : (Fin.ofNat (table.indexOf a) : Byte).val = table.indexOf a :=
      Nat.mod_eq_of_lt (by omega)
    have hmem : a ∈ table := List.indexOf_lt_length.mp hlt
    simp only [Demo.decode, hval, List.indexOf_get? hmem]
  · simp [hlt] at h

theorem GetBundle_after_Build_Load_witness :
    (Demo.empty.Build Demo.c Demo.fs).1 = none ∧
    ∃ db record val,
      Demo.c.ConvertModelBundleToAPIBundle Demo.modelBundle = .ok record ∧
      Demo.c.Marshal record = .ok val ∧
      (Demo.empty.Build Demo.c Demo.fs).2.baseDir.db = some db ∧
      db.bundles.Get (bundleKey (ascii "p") (ascii "c") (ascii "b")) = some val ∧
      ((Demo.empty.Build Demo.c Demo.fs).2.Load Demo.c).1 = none ∧
      (((Demo.empty.Build Demo.c Demo.fs).2.Load Demo.c).2.GetBundle Demo.c (ascii "p")
          (ascii "c") (ascii "b")).1 =
        .ok { record with Replaces := [], Skips := [] } :=
  ⟨rfl, GetBundle_after_Build_Load Demo.c Demo.empty Demo.fs Demo.model
    { Name := ascii "p", DefaultChannel := ascii "c",
      Channels := [{ Name := ascii "c", Bundles := [Demo.modelBundle] }] }
    { Name := ascii "c", Bundles := [Demo.modelBundle] } Demo.modelBundle
    rfl rfl
    (by simp [WellFormedModel, ModelPackage.WellFormed, ModelChannel.WellFormed, Demo.model])
    (Demo.decode_encode _ (by decide))
    (Demo.decode_encode _ (by decide))
    (by simp [Demo.model]) (by simp) (by simp)
    (by simp [Demo.model])⟩

/-- C7 (as stated, refuted): in a well-formed model with the packages `a/b`
(channel `c`, bundle `d`) and `a` (channel `b/c`, bundle `d`), `Build` and
`Load` succeed, both occurrences are written under the key `a/b/c/d.proto`,
and `GetBundle` for the occurrence written first returns the record of the
other one, in either order of the range over the packages. -/
theorem GetBundle_after_Build_Load_collision :
    WellFormedModel Demo.model2 ∧ WellFormedModel Demo.model3 ∧
    (Demo.empty.Build (Demo.c2 Demo.model2) { model := Demo.model2, tar := [] }).1 = none ∧
    (((Demo.empty.Build (Demo.c2 Demo.model2) { model := Demo.model2, tar := [] }).2.Load
        (Demo.c2 Demo.model2)).1 = none) ∧
    ((((Demo.empty.Build (Demo.c2 Demo.model2) { model := Demo.model2, tar := [] }).2.Load
        (Demo.c2 Demo.model2)).2.GetBundle (Demo.c2 Demo.model2) (ascii "a/b") (ascii "c")
        (ascii "d")).1 = .ok { Demo.convert Demo.bundle2 with Replaces := [], Skips := [] }) ∧
    (Demo.empty.Build (Demo.c2 Demo.model3) { model := Demo.model3, tar := [] }).1 = none ∧
    (((Demo.empty.Build (Demo.c2 Demo.model3) { model := Demo.model3, tar := [] }).2.Load
        (Demo.c2 Demo.model3)).1 = none) ∧
    ((((Demo.empty.Build (Demo.c2 Demo.model3) { model := Demo.model3, tar := [] }).2.Load
        (Demo.c2 Demo.model3)).2.GetBundle (Demo.c2 Demo.model3) (ascii "a") (ascii "b/c")
        (ascii "d")).1 = .ok { Demo.convert Demo.bundle1 with Replaces := [], Skips := [] }) ∧
    ({ Demo.convert Demo.bundle2 with Replaces := [], Skips := [] } : ApiBundle) ≠
      { Demo.convert Demo.bundle1 with Replaces := [], Skips := [] } := by
  refine ⟨?_, ?_, rfl, rfl, rfl, rfl, rfl, rfl, by decide⟩
  · simp [WellFormedModel, ModelPackage.WellFormed, ModelChannel.WellFormed, Demo.model2,
      Demo.pkg1, Demo.pkg2]
    decide
  · simp [WellFormedModel, ModelPackage.WellFormed, ModelChannel.WellFormed, Demo.model3,
      Demo.pkg1, Demo.pkg2]
    decide

/-! ## `Bolt.SendBundles` with a sender that never fails -/

theorem SendBundles_loop {FS σ : Type} (c : Collab FS) (Send : ApiBundle → σ → Option Err × σ)
    (hsend : ∀ b s, (Send b s).1 = none) :
    ∀ (entries : Bucket) (s : σ),
      (∀ kv ∈ entries, ∃ r, c.Unmarshal kv.2 = .ok r) →
      Bucket.ForEach (Bolt.SendBundles.each c Send) entries s =
        (none, (entries.map (fun kv => Bolt.SendBundles.sent c kv.2)).foldl
          (fun s r => (Send r s).2) s) := by
  intro entries
  induction entries with
  | nil => intro s _; rfl
  | cons kv rest ih =>
    intro s hdec
    obtain ⟨k, v⟩ := kv
    obtain ⟨r, hr⟩ := hdec (k, v) (List.mem_cons_self _ _)
    simp only at hr
    have hone : Bolt.SendBundles.each c Send k v s =
        (none, (Send (Bolt.SendBundles.sent c v) s).2) := by
      have h1 := hsend (Bolt.SendBundles.prepared r) s
      unfold Bolt.SendBundles.each Bolt.SendBundles.sent
      simp only [hr]
      rcases hS : Send (Bolt.SendBundles.prepared r) s with ⟨e, s1⟩
      rw [hS] at h1
      simp only at h1
      subst h1
      simp only [Bolt.SendBundles.prepared] at hS
      simp only [hS]
    simp only [Bucket.ForEach, hone, List.map_cons, List.foldl_cons]
    exact ih _ (fun kv hkv => hdec kv (List.mem_cons_of_mem _ hkv))

theorem foldl_slice_sender (rs s : List ApiBundle) :
    rs.foldl (fun s r => (SliceBundleSender.Send r s).2) s = s ++ rs := by
  induction rs generalizing s with
  | nil => simp
  | cons r rest ih =>
    rw [List.foldl_cons, ih]
    simp [SliceBundleSender.Send]

/-- C11: on a cache that no caller holds, over a store whose records all
decode and with a sender that never fails, `SendBundles` returns nil and has
handed the sender one record per pair of the bundle partition, in the order
`ForEach` visits the pairs; for `SliceBundleSender` the slice grows by exactly
those records, as many as there are keys. -/
theorem SendBundles_sends_every_record {FS σ : Type} (c : Collab FS) (q : Bolt) (db : DB)
    (Send : ApiBundle → σ → Option Err × σ) (s : σ) (slice : List ApiBundle)
    (hdb : q.baseDir.db = some db) (hrc : q.db = ⟨none, 0⟩)
    (hdec : ∀ kv ∈ db.bundles, ∃ r, c.Unmarshal kv.2 = .ok r)
    (hsend : ∀ b s, (Send b s).1 = none) :
    q.SendBundles c Send s =
      (none, q, (db.bundles.map (fun kv => Bolt.SendBundles.sent c kv.2)).foldl
        (fun s r => (Send r s).2) s, [Call.Open, Call.f, Call.Close]) ∧
    q.SendBundles c SliceBundleSender.Send slice =
      (none, q, slice ++ db.bundles.map (fun kv => Bolt.SendBundles.sent c kv.2),
        [Call.Open, Call.f, Call.Close]) ∧
    (db.bundles.map (fun kv => Bolt.SendBundles.sent c kv.2)).length = db.bundles.length := by
  have hopen : q.openDBReadOnly () = .ok db := by simp [Bolt.openDBReadOnly, hdb]
  have hq : ({ q with db := ⟨none, 0⟩ } : Bolt) = q := by
    cases q
    simp only [Bolt.mk.injEq, true_and] at hrc ⊢
    exact hrc.symm
  have gen : ∀ {τ : Type} (Snd : ApiBundle → τ → Option Err × τ) (t : τ),
      (∀ b s, (Snd b s).1 = none) →
      q.SendBundles c Snd t =
        (none, q, (db.bundles.map (fun kv => Bolt.SendBundles.sent c kv.2)).foldl
          (fun s r => (Snd r s).2) t, [Call.Open, Call.f, Call.Close]) := by
    intro τ Snd t hS
    unfold Bolt.SendBundles
    rw [hrc, With_fresh _ Bolt.dbClose _ _ db hopen rfl]
    simp only [DB.View, SendBundles_loop c Snd hS db.bundles t hdec, NewAggregate_pair, hq]
  refine ⟨gen Send s hsend, ?_, by simp⟩
  rw [gen SliceBundleSender.Send slice (fun _ _ => rfl), foldl_slice_sender]

theorem SendBundles_sends_every_record_witness :
    Demo.bolt.baseDir.db =
      some { packageIndices := [],
             bundles := [(bundleKey (ascii "p") (ascii "c") (ascii "b"), [0])] } ∧
    Demo.bolt.SendBundles (Demo.collab [Demo.record] []) SliceBundleSender.Send [] =
      (none, Demo.bolt, [{ Demo.record with CsvJson := [], Object := [] }],
        [Call.Open, Call.f, Call.Close]) :=
  ⟨rfl, (SendBundles_sends_every_record (Demo.collab [Demo.record] []) Demo.bolt
    { packageIndices := [], bundles := [(bundleKey (ascii "p") (ascii "c") (ascii "b"), [0])] }
    SliceBundleSender.Send [] [] rfl rfl
    (by
      intro kv hkv
      simp only [List.mem_singleton] at hkv
      subst hkv
      exact ⟨Demo.record, rfl⟩)
    (fun _ _ => rfl)).2.1⟩

/-! ## `fbc/v2`: the default of `UpgradesFrom` -/

/-- C12 (as stated, refuted): for version 0.2.3 without `upgradesFrom`, the
decoded constraint is that of `>=0.2.0 <0.2.3`, which rejects 0.1.0, while
the constraint `>=0.0.0 <0.2.3` of the claim accepts 0.1.0; for version 0.0.3
the decoded constraint is that of `>=0.0.3 <0.0.3`. -/
theorem UnmarshalJSON_major_zero :
    defaultUpgradesFrom (Demo.v 0 2 3) = ascii ">=0.2.0 <0.2.3" ∧
    Demo.entry0.UnmarshalJSON Demo.semver
        (fun _ => .ok { Version := Demo.v 0 2 3, UpgradesFrom := [] }) (ascii "{}") =
      (none, { Version := Demo.v 0 2 3,
               UpgradesFrom := [[⟨.ge, Demo.v 0 2 0⟩, ⟨.lt, Demo.v 0 2 3⟩]] }) ∧
    Demo.Check [[⟨.ge, Demo.v 0 2 0⟩, ⟨.lt, Demo.v 0 2 3⟩]] (Demo.v 0 1 0) = false ∧
    Demo.NewConstraint (ascii ">=0.0.0 <0.2.3") =
      .ok [[⟨.ge, Demo.v 0 0 0⟩, ⟨.lt, Demo.v 0 2 3⟩]] ∧
    Demo.Check [[⟨.ge, Demo.v 0 0 0⟩, ⟨.lt, Demo.v 0 2 3⟩]] (Demo.v 0 1 0) = true ∧
    defaultUpgradesFrom (Demo.v 0 0 3) = ascii ">=0.0.3 <0.0.3" :=
  ⟨by decide, rfl, by decide, rfl, by decide, by decide⟩

/-- C12 (amended): for an entry whose JSON omits `upgradesFrom` (or gives the
empty string), the decoded `UpgradesFrom` is the constraint `>=M <Version`,
where `M` is `X.0.0` when the major version `X` is at least 1, `0.Y.0` when
the major version is 0 and the minor version `Y` is at least 1, and `Version`
itself when both are 0. -/
theorem UnmarshalJSON_default_upgradesFrom {C : Type} (sem : Semver C)
    (jsonUnmarshal : Bytes → Except Err entryUnmarshaler) (c : ChannelEntry C)
    (bytes : Bytes) (eu : entryUnmarshaler)
    (hjson : jsonUnmarshal bytes = .ok eu) (hempty : eu.UpgradesFrom = []) :
    (c.UnmarshalJSON sem jsonUnmarshal bytes =
      match sem.NewConstraint
          (ascii ">=" ++ (minVersionFrom eu.Version).String ++ ascii " <" ++ eu.Version.String) with
      | .error err => (some err, { Version := eu.Version, UpgradesFrom := c.UpgradesFrom })
      | .ok cf => (none, { Version := eu.Version, UpgradesFrom := cf })) ∧
    (0 < eu.Version.major →
      minVersionFrom eu.Version = semver.New eu.Version.major 0 0 [] []) ∧
    (eu.Version.major = 0 → 0 < eu.Version.minor →
      minVersionFrom eu.Version = semver.New 0 eu.Version.minor 0 [] []) ∧
    (eu.Version.major = 0 → eu.Version.minor = 0 → minVersionFrom eu.Version = eu.Version) := by
  refine ⟨?_, ?_, ?_, ?_⟩
  · simp only [ChannelEntry.UnmarshalJSON, hjson, hempty, if_true, defaultUpgradesFrom]
  · intro h
    have : eu.Version.major ≠ 0 := by omega
    simp [minVersionFrom, this]
  · intro h0 h1
    have : eu.Version.minor ≠ 0 := by omega
    simp [minVersionFrom, h0, this]
  · intro h0 h1
    simp [minVersionFrom, h0, h1]

theorem UnmarshalJSON_default_upgradesFrom_witness :
    Demo.entry0.UnmarshalJSON Demo.semver
        (fun _ => .ok { Version := Demo.v 1 2 3, UpgradesFrom := [] }) (ascii "{}") =
      (none, { Version := Demo.v 1 2 3,
               UpgradesFrom := [[⟨.ge, Demo.v 1 0 0⟩, ⟨.lt, Demo.v 1 2 3⟩]] }) ∧
    minVersionFrom (Demo.v 1 2 3) = semver.New 1 0 0 [] [] :=
  ⟨(UnmarshalJSON_default_upgradesFrom Demo.semver
      (fun _ => .ok { Version := Demo.v 1 2 3, UpgradesFrom := [] }) Demo.entry0 (ascii "{}")
      { Version := Demo.v 1 2 3, UpgradesFrom := [] } rfl rfl).1,
   (UnmarshalJSON_default_upgradesFrom Demo.semver
      (fun _ => .ok { Version := Demo.v 1 2 3, UpgradesFrom := [] }) Demo.entry0 (ascii "{}")
      { Version := Demo.v 1 2 3, UpgradesFrom := [] } rfl rfl).2.1 (by decide)⟩

/-! ## The migration to the v2 schemas -/

theorem decimal_one : decimal 1 = ascii "1" := by decide

theorem v2_bundleName_eq (pkg : Bytes) (vers : Version) :
    v2.bundleName pkg vers = (pkg ++ ascii "-" ++ vers.String) ++ ascii "-1" := by
  have h : ascii "-1" = ascii "-" ++ ascii "1" := by decide
  simp [v2.bundleName, decimal_one, h, List.append_assoc]

/-- One call of the function literal over a bundle appends nothing to
`cfg.BundlesV2`, or one bundle named after its package and version. -/
theorem v2_bundle_appends {C : Type} (sem : Semver C) (js : MigrationJSON)
    (st st1 : MigrationState) (b : DeclBundle) (h : v2.bundle sem js st b = .returns st1) :
    st1.BundlesV2 = st.BundlesV2 ∨
    ∃ x, st1.BundlesV2 = st.BundlesV2 ++ [x] ∧ x.Name = x.packageVersion ++ ascii "-1" ∧
      x.Release = 1 ∧ x.Package = b.Package := by
  unfold v2.bundle at h
  cases hp : v2.bundleProperties sem js b.Name b.Properties
      { vers := none, properties := [], rawListProperties := [], rawListConstraints := [] } with
  | error err =>
    simp only [hp, Outcome.returns.injEq] at h
    subst h
    exact Or.inl rfl
  | ok vars =>
    simp only [hp] at h
    cases hv : vars.vers with
    | none => simp [hv] at h
    | some vers =>
      simp only [hv, Outcome.returns.injEq] at h
      subst h
      exact Or.inr ⟨_, rfl, v2_bundleName_eq _ _, rfl, rfl⟩

theorem v2_bundles_appends {C : Type} (sem : Semver C) (js : MigrationJSON) :
    ∀ (bundles : List DeclBundle) (st st1 : MigrationState),
      v2.bundles sem js bundles st = .returns st1 →
      ∃ new, st1.BundlesV2 = st.BundlesV2 ++ new ∧
        ∀ x ∈ new, x.Name = x.packageVersion ++ ascii "-1" ∧ x.Release = 1 := by
  intro bundles
  induction bundles with
  | nil =>
    intro st st1 h
    simp only [v2.bundles, Outcome.returns.injEq] at h
    subst h
    exact ⟨[], by simp, by simp⟩
  | cons b rest ih =>
    intro st st1 h
    unfold v2.bundles at h
    cases hb : v2.bundle sem js st b with
    | panics msg => simp [hb] at h
    | returns st2 =>
      simp only [hb] at h
      obtain ⟨new, hnew, hall⟩ := ih st2 st1 h
      rcases v2_bundle_appends sem js st st2 b hb with h2 | ⟨x, h2, hx, hr, -⟩
      · exact ⟨new, by rw [hnew, h2], hall⟩
      · refine ⟨x :: new, by rw [hnew, h2]; simp, ?_⟩
        intro y hy
        rcases List.mem_cons.mp hy with e | e
        · subst e
          exact ⟨hx, hr⟩
        · exact hall y e

theorem v2_bundleProperties_name {C : Type} (sem : Semver C) (js : MigrationJSON)
    (n1 n2 : Bytes) :
    ∀ (props : List Property) (vars vars1 : BundleVars),
      v2.bundleProperties sem js n1 props vars = .ok vars1 →
      v2.bundleProperties sem js n2 props vars = .ok vars1 := by
  intro props
  induction props with
  | nil =>
    intro vars vars1 h
    simpa [v2.bundleProperties] using h
  | cons p rest ih =>
    intro vars vars1 h
    unfold v2.bundleProperties at h ⊢
    by_cases h1 : p.Type_ = TypePackage
    · simp only [h1, if_true] at h ⊢
      cases hu : js.UnmarshalPackage p.Value with
      | error err => simp [hu] at h
      | ok pkgProp =>
        simp only [hu] at h ⊢
        cases hv : sem.NewVersion pkgProp.Version with
        | error err => simp [hv] at h
        | ok vers =>
          simp only [hv] at h ⊢
          exact ih _ _ h
    · simp only [h1, if_false] at h ⊢
      by_cases h2 : p.Type_ = TypeCSVMetadata
      · simp only [h2, if_true] at h ⊢
        exact ih _ _ h
      · simp only [h2, if_false] at h ⊢
        by_cases h3 : p.Type_ = TypeGVK ∨ p.Type_ = TypeBundleObject
        · simp only [h3, if_true] at h ⊢
          exact ih _ _ h
        · simp only [h3, if_false] at h ⊢
          by_cases h4 : p.Type_ = TypeGVKRequired ∨ p.Type_ = TypePackageRequired ∨
              p.Type_ = TypeConstraint
          · simp only [h4, if_true] at h ⊢
            exact ih _ _ h
          · simp only [h4, if_false] at h
            cases h

/-- The bundle one call of the function literal appends: it has the package of
the input bundle, the version that the loop over the properties of the input
bundle left in `vers`, the name `<Package>-<Version>-1` and the release 1. -/
theorem v2_bundle_appended {C : Type} (sem : Semver C) (js : MigrationJSON)
    (st st1 : MigrationState) (b : DeclBundle) (x : BundleV2)
    (h : v2.bundle sem js st b = .returns st1) (hx : st1.BundlesV2 = st.BundlesV2 ++ [x]) :
    ∃ vars, v2.bundleProperties sem js b.Name b.Properties
        { vers := none, properties := [], rawListProperties := [], rawListConstraints := [] }
        = .ok vars ∧
      vars.vers = some x.Version ∧ x.Package = b.Package ∧
      x.Name = b.Package ++ ascii "-" ++ x.Version.String ++ ascii "-1" ∧ x.Release = 1 := by
  unfold v2.bundle at h
  cases hp : v2.bundleProperties sem js b.Name b.Properties
      { vers := none, properties := [], rawListProperties := [], rawListConstraints := [] } with
  | error err =>
    simp only [hp, Outcome.returns.injEq] at h
    subst h
    have := congrArg List.length hx
    simp at this
  | ok vars =>
    simp only [hp] at h
    cases hv : vars.vers with
    | none => simp [hv] at h
    | some vers =>
      simp only [hv, Outcome.returns.injEq] at h
      subst h
      simp only [List.append_cancel_left_eq, List.cons.injEq, and_true] at hx
      subst hx
      exact ⟨vars, rfl, hv, rfl, v2_bundleName_eq _ _, rfl⟩

/-- The name of a migrated bundle does not depend on the name of the input
bundle: two input bundles with the same package and the same properties that
are both migrated get the same v2 name, whatever their own names are. -/
theorem v2_bundle_same_name {C : Type} (sem : Semver C) (js : MigrationJSON)
    (st st1 sa sa1 : MigrationState) (b b1 : DeclBundle) (x x1 : BundleV2)
    (hpkg : b1.Package = b.Package) (hprops : b1.Properties = b.Properties)
    (h : v2.bundle sem js st b = .returns sa) (hx : sa.BundlesV2 = st.BundlesV2 ++ [x])
    (h1 : v2.bundle sem js st1 b1 = .returns sa1) (hx1 : sa1.BundlesV2 = st1.BundlesV2 ++ [x1]) :
    x1.Name = x.Name := by
  obtain ⟨vars, hv, hvers, -, hname, -⟩ := v2_bundle_appended sem js st sa b x h hx
  obtain ⟨vars1, hv1, hvers1, -, hname1, -⟩ := v2_bundle_appended sem js st1 sa1 b1 x1 h1 hx1
  rw [hprops] at hv1
  have := v2_bundleProperties_name sem js b1.Name b.Name _ _ _ hv1
  rw [hv] at this
  have e : vars = vars1 := Except.ok.inj this
  subst e
  rw [hvers] at hvers1
  have ev : x.Version = x1.Version := Option.some.inj hvers1
  rw [hname, hname1, hpkg, ev]

/-- C13 (the code at the failing input): the catalog `Demo.cfgDup` has two
bundles of package `foo` with the distinct names `foo.v1.0.0` and
`foo-alt.v1.0.0` and the same version 1.0.0; the migration returns nil and
both migrated bundles have the name `foo-1.0.0-1` (package `foo`, version
1.0.0, release 1), so the migrated names are not pairwise distinct. -/
theorem v2_bundle_names_collide :
    [ascii "foo.v1.0.0", ascii "foo-alt.v1.0.0"].Nodup ∧
    Demo.names (v2.bundles Demo.semver Demo.json
      [Demo.declBundle (ascii "foo.v1.0.0") (ascii "1.0.0"),
       Demo.declBundle (ascii "foo-alt.v1.0.0") (ascii "1.0.0")]
      { nameToVersion := [], errs := [], BundlesV2 := [] }) =
      [ascii "foo-1.0.0-1", ascii "foo-1.0.0-1"] ∧
    ¬ [ascii "foo-1.0.0-1", ascii "foo-1.0.0-1"].Nodup ∧
    Demo.cfgDup.Bundles.map (fun b => b.Name) = [ascii "foo.v1.0.0", ascii "foo-alt.v1.0.0"] ∧
    Demo.migrated (v2 Demo.semver Demo.json Demo.cfgDup) =
      some [(ascii "foo-1.0.0-1", ascii "foo", Demo.v 1 0 0, 1),
            (ascii "foo-1.0.0-1", ascii "foo", Demo.v 1 0 0, 1)] := by
  refine ⟨by decide, by rfl, by decide, by rfl, by rfl⟩

theorem Demo.impossible_range (v : Version) :
    Demo.NewConstraint (ascii "<0.0.0 >0.0.0") =
      .ok [[⟨.lt, Demo.v 0 0 0⟩, ⟨.gt, Demo.v 0 0 0⟩]] ∧
    Demo.Check [[⟨.lt, Demo.v 0 0 0⟩, ⟨.gt, Demo.v 0 0 0⟩]] v = false := by
  refine ⟨rfl, ?_⟩
  simp only [Demo.Check, Demo.accepts, List.any_cons, List.all_cons, List.any_nil, List.all_nil,
    Bool.and_true, Bool.or_false]
  by_cases hp : v.pre ≠ [] ∧ (Demo.v 0 0 0).pre = []
  · simp [hp]
  · cases hc : Demo.Compare v (Demo.v 0 0 0) <;> simp [hp, hc]

/-- An entry without `Replaces`, `Skips` and `SkipRange` gets the impossible
range. -/
theorem v2_upgradesFromStr_no_edges (nameToVersion : GoMap Version) (name : Bytes) :
    v2.upgradesFromStr nameToVersion
      { Name := name, Replaces := [], Skips := [], SkipRange := [] } = ascii "<0.0.0 >0.0.0" := by
  simp [v2.upgradesFromStr]

/-- C14 (the code at the failing input): in a catalog whose bundles 1.0.0,
1.1.0 and 1.2.0 all migrate, the entry 1.2.0 that replaces 1.0.0 and skips
1.1.0 gets the constraint text `1.0.0 1.1.0`, whose two comparisons must both
hold: the migrated entry accepts neither 1.0.0 nor 1.1.0.  The entry with the
single edge to 1.0.0 accepts 1.0.0, and the entry without edges accepts
nothing. -/
theorem v2_upgrade_edges_lost :
    v2.upgradesFromStr
      [(ascii "foo.v1.0.0", Demo.v 1 0 0), (ascii "foo.v1.1.0", Demo.v 1 1 0),
       (ascii "foo.v1.2.0", Demo.v 1 2 0)]
      { Name := ascii "foo.v1.2.0", Replaces := ascii "foo.v1.0.0",
        Skips := [ascii "foo.v1.1.0"], SkipRange := [] } = ascii "1.0.0 1.1.0" ∧
    Demo.NewConstraint (ascii "1.0.0 1.1.0") =
      .ok [[⟨.eq, Demo.v 1 0 0⟩, ⟨.eq, Demo.v 1 1 0⟩]] ∧
    Demo.accepted (v2 Demo.semver Demo.json Demo.cfg)
        [Demo.v 1 0 0, Demo.v 1 1 0, Demo.v 1 2 0] =
      [[(Demo.v 1 0 0, [false, false, false]),
        (Demo.v 1 1 0, [true, false, false]),
        (Demo.v 1 2 0, [false, false, false])]] := by
  refine ⟨by decide, rfl, by rfl⟩

theorem v2_bundleProperties_vers {C : Type} (sem : Semver C) (js : MigrationJSON)
    (bName : Bytes) :
    ∀ (props : List Property) (vars vars1 : BundleVars),
      (∀ p ∈ props, p.Type_ ≠ TypePackage) →
      v2.bundleProperties sem js bName props vars = .ok vars1 → vars1.vers = vars.vers := by
  intro props
  induction props with
  | nil =>
    intro vars vars1 _ h
    simp only [v2.bundleProperties, Except.ok.injEq] at h
    rw [h]
  | cons p rest ih =>
    intro vars vars1 hne h
    have hp : p.Type_ ≠ TypePackage := hne p (List.mem_cons_self _ _)
    have hrest : ∀ q ∈ rest, q.Type_ ≠ TypePackage :=
      fun q hq => hne q (List.mem_cons_of_mem _ hq)
    unfold v2.bundleProperties at h
    simp only [hp, if_false] at h
    split at h
    · have := ih _ _ hrest h
      exact this
    · split at h
      · have := ih _ _ hrest h
        exact this
      · split at h
        · have := ih _ _ hrest h
          exact this
        · cases h

/-- A bundle without an `olm.package` property is never migrated: the function
literal appends an error for an unknown property type, or it panics at the
dereference of the version that was never set. -/
theorem v2_bundle_without_package {C : Type} (sem : Semver C) (js : MigrationJSON)
    (st : MigrationState) (b : DeclBundle) (hne : ∀ p ∈ b.Properties, p.Type_ ≠ TypePackage) :
    (∃ err, v2.bundle sem js st b = .returns { st with errs := st.errs ++ [err] }) ∨
    v2.bundle sem js st b =
      .panics "runtime error: invalid memory address or nil pointer dereference" := by
  unfold v2.bundle
  cases hp : v2.bundleProperties sem js b.Name b.Properties
      { vers := none, properties := [], rawListProperties := [], rawListConstraints := [] } with
  | error err => exact Or.inl ⟨err, rfl⟩
  | ok vars =>
    have hv := v2_bundleProperties_vers sem js b.Name b.Properties _ vars hne hp
    simp only at hv
    right
    simp only [hv]

/-- C15 (the code at the failing input): a bundle without properties, and a
bundle whose only property is its CSV metadata, make the function literal
panic at `*vers`, for every state and every reading of versions and JSON; so
does the whole migration of a catalog with such a bundle. -/
theorem v2_bundle_panics_without_package {C : Type} (sem : Semver C) (js : MigrationJSON)
    (st : MigrationState) (name pkg image value : Bytes) (related : List RelatedImage)
    (channels : List DeclChannel) (channelsV2 : List (ChannelV2 C)) (bundlesV2 : List BundleV2) :
    v2.bundle sem js st
        { Name := name, Package := pkg, Image := image, Properties := [],
          RelatedImages := related } =
      .panics "runtime error: invalid memory address or nil pointer dereference" ∧
    v2.bundle sem js st
        { Name := name, Package := pkg, Image := image,
          Properties := [{ Type_ := TypeCSVMetadata, Value := value }],
          RelatedImages := related } =
      .panics "runtime error: invalid memory address or nil pointer dereference" ∧
    v2 sem js
        { Channels := channels,
          Bundles := [{ Name := name, Package := pkg, Image := image, Properties := [],
                        RelatedImages := related }],
          ChannelsV2 := channelsV2, BundlesV2 := bundlesV2 } =
      .panics "runtime error: invalid memory address or nil pointer dereference" := by
  have h1 : v2.bundle sem js st
      { Name := name, Package := pkg, Image := image, Properties := [],
        RelatedImages := related } =
      .panics "runtime error: invalid memory address or nil pointer dereference" := rfl
  have hne : TypeCSVMetadata ≠ TypePackage := by decide
  refine ⟨h1, ?_, ?_⟩
  · simp [v2.bundle, v2.bundleProperties, hne]
  · simp [v2, v2.bundles, v2.bundle, v2.bundleProperties]

end OperatorRegistry

